import Mathlib

/-!
# SCPPRaytracer utility kernel: Vector, Point, Normal and Matrix

A shallow embedding of `src/utility/{Vector,Point,Normal,Matrix}.{hpp,cpp}`.

* The scalar type `float` is idealised as an arbitrary field `F`: every operation is the
  exact field operation, so rounding, infinities and NaN are outside the model. The
  functions `sqrt`, `cos` and `sin` of the scalar type are parameters of the definitions
  that call them; statements about angles and magnitudes equal to 1 are made over the
  reals with `Real.cos`, `Real.sin` and `Real.sqrt`. `Normalize` of a zero magnitude has
  no value (`none`).
* Because rounding is outside the model, the theorems about the wrappers state only what
  holds operation by operation: coefficient formulas, copies, products with a zero
  coefficient, and concrete inputs with small integer coefficients. Laws that hold only up
  to rounding (an addition undone by a subtraction, unit magnitude after `Normalize`,
  lengths kept by a rotation, a cross product orthogonal to its factors) are not stated.
* Every call of `Matrix::operator*(const Point&)` reads storage of its own that
  `translation.resize(4)` leaves uninitialised; it is the argument `fresh` of
  `Matrix.mulPoint`, and two calls may find different contents.
* The Eigen types the wrappers hold are modelled in the namespace `Eigen` from the Eigen
  operations the source calls: `Vector4f` is a 4-tuple, `Affine3f` is a 3x3 linear block
  together with a 3-component translation (the stored bottom row of an `Affine3f` is
  never read by the operations used in the source).
* The wrappers of the repository live in the namespace `SCPPR` and keep their names.
-/

namespace Eigen

/-- Source: `Eigen::Vector4f`: four coefficients x, y, z, w (indices 0, 1, 2, 3). -/
abbrev Vector4f (F : Type) := Fin 4 → F

/-- Source: `Eigen::Vector3f`: three coefficients. -/
abbrev Vector3f (F : Type) := Fin 3 → F

/-- Source: `Eigen::Matrix3f`: a 3x3 matrix. -/
abbrev Matrix3f (F : Type) := Matrix (Fin 3) (Fin 3) F

/-- Source: `Eigen::Affine3f` (`Transform<float,3,Affine>`): linear block and translation. -/
structure Affine3f (F : Type) where
  linear : Matrix3f F
  translation : Vector3f F

variable {F : Type} [Field F]

/-- Source: `v.topRows(3)` (also `Vector3f(v.data())`): the first three coefficients. -/
def topRows3 (v : Vector4f F) : Vector3f F := ![v 0, v 1, v 2]

/-- A 4-tuple from its first three coefficients and its last one. -/
def ofRows (u : Vector3f F) (w : F) : Vector4f F := ![u 0, u 1, u 2, w]

/-- Source: `a.dot(b)` on `Vector4f`: the sum over all four coefficients. -/
def dot (a b : Vector4f F) : F := a 0 * b 0 + a 1 * b 1 + a 2 * b 2 + a 3 * b 3

/-- Source: `a.squaredNorm()` on `Vector4f`: `a.dot(a)`, all four coefficients. -/
def squaredNorm (a : Vector4f F) : F := dot a a

/-- Source: `a.norm()` on `Vector4f`: the square root of `squaredNorm`; the square-root function of
the scalar type is a parameter. -/
def norm (sqrt : F → F) (a : Vector4f F) : F := sqrt (squaredNorm a)

namespace Affine3f

/-- Source: `Affine3f::Identity()`. -/
def Identity : Affine3f F := ⟨1, 0⟩

/-- Source: `(Affine3f) m` for a 3x3 matrix `m`: the linear block is `m`, the translation is
zeroed. -/
def ofLinear (m : Matrix3f F) : Affine3f F := ⟨m, 0⟩

/-- Source: `(Affine3f) Eigen::Scaling(x, y, z)`: diagonal linear block, zero translation. -/
def ofScaling (x y z : F) : Affine3f F := ⟨Matrix.diagonal ![x, y, z], 0⟩

/-- Source: `(Affine3f) Eigen::Scaling(s)`: the uniform scaling. -/
def ofUniformScaling (s : F) : Affine3f F := ⟨Matrix.diagonal (fun _ => s), 0⟩

/-- Source: `(Affine3f) Eigen::Translation3f(x, y, z)`: identity linear block, translation
`(x, y, z)`. -/
def ofTranslation (x y z : F) : Affine3f F := ⟨1, ![x, y, z]⟩

/-- Source: `a * b` on two `Affine3f`: `linear = a.linear * b.linear`,
`translation = a.linear * b.translation + a.translation`. -/
def mul (a b : Affine3f F) : Affine3f F :=
  ⟨a.linear * b.linear, a.linear.mulVec b.translation + a.translation⟩

/-- Source: `t * v` for an `Affine3f` and a `Vector4f` (a right operand with as many rows as the
homogeneous dimension): the top three rows are `[linear | translation] * v`, the last row
is the last row of `v`. -/
def mulVec4 (t : Affine3f F) (v : Vector4f F) : Vector4f F :=
  ofRows (t.linear.mulVec (topRows3 v) + v 3 • t.translation) (v 3)

/-- Source: `(Affine3f) Eigen::AngleAxis<float>(angle, axis)`: the linear block is
`AngleAxis::toRotationMatrix()`, the translation is zeroed. `toRotationMatrix` uses the axis
as it is stored (Eigen documents that the axis must be normalized and does not normalize
it): with `sin_axis = sin(angle) * axis`, `c = cos(angle)` and
`cos1_axis = (1 - c) * axis`, the off-diagonal coefficients are
`cos1_axis(i) * axis(j)` plus or minus a coefficient of `sin_axis`, and the diagonal is
`cos1_axis(i) * axis(i) + c`. The cosine and sine functions of the scalar type are
parameters. -/
def ofAngleAxis (cos sin : F → F) (angle : F) (axis : Vector3f F) : Affine3f F :=
  let sin_axis : Vector3f F := fun i => sin angle * axis i
  let c : F := cos angle
  let cos1_axis : Vector3f F := fun i => (1 - c) * axis i
  ⟨Matrix.of ![![cos1_axis 0 * axis 0 + c, cos1_axis 0 * axis 1 - sin_axis 2,
                  cos1_axis 0 * axis 2 + sin_axis 1],
                ![cos1_axis 0 * axis 1 + sin_axis 2, cos1_axis 1 * axis 1 + c,
                  cos1_axis 1 * axis 2 - sin_axis 0],
                ![cos1_axis 0 * axis 2 - sin_axis 1, cos1_axis 1 * axis 2 + sin_axis 0,
                  cos1_axis 2 * axis 2 + c]], 0⟩

end Affine3f

/-- Source: `a.cross(b)` on `Eigen::Vector3f`. -/
def cross3 (a b : Vector3f F) : Vector3f F :=
  ![a 1 * b 2 - a 2 * b 1, a 2 * b 0 - a 0 * b 2, a 0 * b 1 - a 1 * b 0]

/-- Source: `a.normalize()` on `Vector4f`: every coefficient is divided by `a.norm()`. A zero
norm has no quotient among the scalars (the spec: a zero magnitude "yields NaN, not an
error"), and the result is `none` then. -/
def normalize [DecidableEq F] (sqrt : F → F) (a : Vector4f F) : Option (Vector4f F) :=
  if norm sqrt a = 0 then none else some (fun i => a i / norm sqrt a)

/-- Source: `x.resize(4)` on an `Eigen::VectorXf` holding three coefficients. The number of
coefficients changes, so Eigen releases the storage and allocates a new one without
copying (the documentation of `resize`: "the data is reallocated and all previous values
are lost"; only `conservativeResize` keeps them). The coefficients afterwards are those of
the new storage, `fresh`; the old coefficients are not used. -/
def resize4 (fresh : Vector4f F) (_old : Vector3f F) : Vector4f F := fresh

end Eigen

namespace SCPPR

open Eigen

/-- The class `Vector`: wraps an `Eigen::Vector4f`. -/
@[ext] structure Vector (F : Type) where
  coordinates : Vector4f F

/-- The class `Point`: wraps an `Eigen::Vector4f`. -/
@[ext] structure Point (F : Type) where
  coordinates : Vector4f F

/-- The class `Normal`: wraps an `Eigen::Vector4f`. -/
@[ext] structure Normal (F : Type) where
  coordinates : Vector4f F

/-- The class `Matrix`: wraps an `Eigen::Affine3f`. -/
structure Matrix (F : Type) where
  matrix : Affine3f F

variable {F : Type} [Field F]

/-- Source: `Point::GetContents`. -/
def Point.GetContents (p : Point F) : Vector4f F := p.coordinates

/-- Source: `Normal::GetContents`. -/
def Normal.GetContents (n : Normal F) : Vector4f F := n.coordinates

/-! ### Vector -/

namespace Vector

/-- Source: `Vector::Vector()`. -/
def new : Vector F := ⟨![0, 0, 0, 0]⟩

/-- Source: `Vector::Vector(float xArg, float yArg, float zArg)`. -/
def ofXYZ (xArg yArg zArg : F) : Vector F := ⟨![xArg, yArg, zArg, 0]⟩

/-- Source: `Vector::Vector(float *coords)`: four floats are read at `coords`, then the fourth
coefficient is set to 0. -/
def ofArray (coords : Fin 4 → F) : Vector F := ⟨Function.update coords 3 0⟩

/-- Source: `Vector::Vector(Eigen::Vector4f copy)`: wraps the 4-tuple as given. -/
def ofContents (copy : Vector4f F) : Vector F := ⟨copy⟩

/-- Source: `Vector::Vector(const Vector& copy)`. -/
def copy (c : Vector F) : Vector F := ⟨c.coordinates⟩

/-- Source: `Vector::GetContents`. -/
def GetContents (v : Vector F) : Vector4f F := v.coordinates

/-- Source: `Vector::GetX`. -/
def GetX (v : Vector F) : F := v.coordinates 0

/-- Source: `Vector::GetY`. -/
def GetY (v : Vector F) : F := v.coordinates 1

/-- Source: `Vector::GetZ`. -/
def GetZ (v : Vector F) : F := v.coordinates 2

/-- The stored fourth coefficient (the source has no accessor for it; it is read through
`GetContents`). -/
def w (v : Vector F) : F := v.GetContents 3

/-- Source: `Vector::SetX`. -/
def SetX (v : Vector F) (xCoord : F) : Vector F := ⟨Function.update v.coordinates 0 xCoord⟩

/-- Source: `Vector::SetY`. -/
def SetY (v : Vector F) (yCoord : F) : Vector F := ⟨Function.update v.coordinates 1 yCoord⟩

/-- Source: `Vector::SetZ`. -/
def SetZ (v : Vector F) (zCoord : F) : Vector F := ⟨Function.update v.coordinates 2 zCoord⟩

/-- Source: `Vector::SetContents`. -/
def SetContents (_v : Vector F) (newContents : Vector4f F) : Vector F := ⟨newContents⟩

/-- Source: `Vector::GetSquaredMagnitude`: `coordinates.squaredNorm()`. -/
def GetSquaredMagnitude (v : Vector F) : F := squaredNorm v.coordinates

/-- Source: `Vector::GetMagnitude`: `coordinates.norm()`. -/
def GetMagnitude (sqrt : F → F) (v : Vector F) : F := norm sqrt v.coordinates

/-- Source: `Vector::Vector(const Normal& normalCopy)`. -/
def ofNormal (normalCopy : Normal F) : Vector F := ⟨normalCopy.GetContents⟩

/-- Source: `Vector::Vector(const Point& pointCopy)`. -/
def ofPoint (pointCopy : Point F) : Vector F := ⟨pointCopy.GetContents⟩

/-- Source: `Vector::operator+ (const Vector&)`. -/
def add (v otherVector : Vector F) : Vector F :=
  ofContents (v.coordinates + otherVector.coordinates)

/-- Source: `Vector::operator- (const Vector&)`. -/
def sub (v otherVector : Vector F) : Vector F :=
  ofContents (v.coordinates - otherVector.coordinates)

/-- Source: `Vector::operator* (const float)`. -/
def mulScalar (v : Vector F) (scalar : F) : Vector F := ofContents (fun i => v.coordinates i * scalar)

/-- Source: `Vector::operator/ (const float)`. -/
def divScalar (v : Vector F) (scalar : F) : Vector F := ofContents (fun i => v.coordinates i / scalar)

/-- Source: `operator* (const float, const Vector&)`. -/
def scalarMul (scalar : F) (v : Vector F) : Vector F := ofContents (fun i => scalar * v.GetContents i)

/-- Source: `Vector::operator* (const Vector&)`: the dot product of the two 4-tuples. -/
def dotVector (v otherVector : Vector F) : F := dot v.coordinates otherVector.coordinates

/-- Source: `Vector::operator* (const Normal&)`. -/
def dotNormal (v : Vector F) (secondNormal : Normal F) : F :=
  dot v.coordinates secondNormal.GetContents

/-- Source: `Vector::operator- (void)`. -/
def neg (v : Vector F) : Vector F := ofContents (-v.coordinates)

/-- Source: `Vector::operator+ (const Normal&)`. -/
def addNormal (v : Vector F) (secondNormal : Normal F) : Vector F :=
  ofContents (v.coordinates + secondNormal.GetContents)

/-- Source: `Vector::operator^ (const Vector&)`. The first three coordinates of each operand
are copied into a `Vector3f`, their cross product is a `Vector3f`, and the result is built
by the float-array constructor from `crossProduct.data()`: that constructor reads four
floats, so the fourth one, `past`, is the float that lies past the end of the three-float
array, and then sets the fourth coefficient to 0. -/
def cross (past : F) (v secondVector : Vector F) : Vector F :=
  let vect1 : Vector3f F := topRows3 v.coordinates
  let vect2 : Vector3f F := topRows3 secondVector.coordinates
  let crossProduct : Vector3f F := cross3 vect1 vect2
  ofArray ![crossProduct 0, crossProduct 1, crossProduct 2, past]

/-- Source: `Vector::Normalize`: `coordinates.normalize()`; the value is the Vector after the
call. -/
def Normalize [DecidableEq F] (sqrt : F → F) (v : Vector F) : Option (Vector F) :=
  (normalize sqrt v.coordinates).map Vector.mk

end Vector

/-! ### Point -/

namespace Point

/-- Source: `Point::Point()`. -/
def new : Point F := ⟨![0, 0, 0, 0]⟩

/-- Source: `Point::Point(float xArg, float yArg, float zArg)`. -/
def ofXYZ (xArg yArg zArg : F) : Point F := ⟨![xArg, yArg, zArg, 0]⟩

/-- Source: `Point::Point(float* coords)`: four floats are read at `coords`, then the fourth
coefficient is set to 0. -/
def ofArray (coords : Fin 4 → F) : Point F := ⟨Function.update coords 3 0⟩

/-- Source: `Point::Point(Eigen::Vector4f copy)`: wraps the 4-tuple as given. -/
def ofContents (copy : Vector4f F) : Point F := ⟨copy⟩

/-- Source: `Point::Point(const Point& point)`. -/
def copy (point : Point F) : Point F := ⟨point.coordinates⟩

/-- Source: `Point::Point(const Normal& normal)`. -/
def ofNormal (normal : Normal F) : Point F := ⟨normal.GetContents⟩

/-- Source: `Point::Point(const Vector& vector)`. -/
def ofVector (vector : Vector F) : Point F := ⟨vector.GetContents⟩

/-- Source: `Point::GetX`. -/
def GetX (p : Point F) : F := p.coordinates 0

/-- Source: `Point::GetY`. -/
def GetY (p : Point F) : F := p.coordinates 1

/-- Source: `Point::GetZ`. -/
def GetZ (p : Point F) : F := p.coordinates 2

/-- The stored fourth coefficient, read through `GetContents`. -/
def w (p : Point F) : F := p.GetContents 3

/-- Source: `Point::SetX`. -/
def SetX (p : Point F) (xCoord : F) : Point F := ⟨Function.update p.coordinates 0 xCoord⟩

/-- Source: `Point::SetY`. -/
def SetY (p : Point F) (yCoord : F) : Point F := ⟨Function.update p.coordinates 1 yCoord⟩

/-- Source: `Point::SetZ`. -/
def SetZ (p : Point F) (zCoord : F) : Point F := ⟨Function.update p.coordinates 2 zCoord⟩

/-- Source: `Point::SetContents`. -/
def SetContents (_p : Point F) (newContents : Vector4f F) : Point F := ⟨newContents⟩

/-- Source: `Point::operator+ (const Vector&)`. -/
def addVector (p : Point F) (vector : Vector F) : Point F :=
  ofContents (p.coordinates + vector.GetContents)

/-- Source: `Point::operator- (const Vector&)`. -/
def subVector (p : Point F) (vector : Vector F) : Point F :=
  ofContents (p.coordinates - vector.GetContents)

/-- Source: `Point::operator- (const Point&)`. -/
def sub (p point : Point F) : Vector F := Vector.ofContents (p.coordinates - point.coordinates)

/-- Source: `Point::operator* (const float)`. -/
def mulScalar (p : Point F) (scalar : F) : Point F := ofContents (fun i => p.coordinates i * scalar)

/-- Source: `operator* (const float, const Point&)`. -/
def scalarMul (scalar : F) (point : Point F) : Point F :=
  ofContents (fun i => scalar * point.GetContents i)

end Point

/-! ### Normal -/

namespace Normal

/-- Source: `Normal::Normal()`. -/
def new : Normal F := ⟨![0, 0, 0, 0]⟩

/-- Source: `Normal::Normal(float xArg, float yArg, float zArg)`. -/
def ofXYZ (xArg yArg zArg : F) : Normal F := ⟨![xArg, yArg, zArg, 0]⟩

/-- Source: `Normal::Normal(float* coords)`: four floats are read at `coords`, then the fourth
coefficient is set to 0. -/
def ofArray (coords : Fin 4 → F) : Normal F := ⟨Function.update coords 3 0⟩

/-- Source: `Normal::Normal(Eigen::Vector4f copy)`: wraps the 4-tuple as given. -/
def ofContents (copy : Vector4f F) : Normal F := ⟨copy⟩

/-- Source: `Normal::Normal(const Normal& copy)`. -/
def copy (c : Normal F) : Normal F := ⟨c.coordinates⟩

/-- Source: `Normal::Normal(const Point& copy)`. -/
def ofPoint (c : Point F) : Normal F := ⟨c.GetContents⟩

/-- Source: `Normal::Normal(const Vector& copy)`. -/
def ofVector (c : Vector F) : Normal F := ⟨c.GetContents⟩

/-- Source: `Normal::GetX`. -/
def GetX (n : Normal F) : F := n.coordinates 0

/-- Source: `Normal::GetY`. -/
def GetY (n : Normal F) : F := n.coordinates 1

/-- Source: `Normal::GetZ`. -/
def GetZ (n : Normal F) : F := n.coordinates 2

/-- The stored fourth coefficient, read through `GetContents`. -/
def w (n : Normal F) : F := n.GetContents 3

/-- Source: `Normal::SetX`. -/
def SetX (n : Normal F) (xCoord : F) : Normal F := ⟨Function.update n.coordinates 0 xCoord⟩

/-- Source: `Normal::SetY`. -/
def SetY (n : Normal F) (yCoord : F) : Normal F := ⟨Function.update n.coordinates 1 yCoord⟩

/-- Source: `Normal::SetZ`. -/
def SetZ (n : Normal F) (zCoord : F) : Normal F := ⟨Function.update n.coordinates 2 zCoord⟩

/-- Source: `Normal::SetContents`. -/
def SetContents (_n : Normal F) (newContents : Vector4f F) : Normal F := ⟨newContents⟩

/-- Source: `Normal::GetSquaredMagnitude`: `coordinates.squaredNorm()`. -/
def GetSquaredMagnitude (n : Normal F) : F := squaredNorm n.coordinates

/-- Source: `Normal::GetMagnitude`: `coordinates.norm()`. -/
def GetMagnitude (sqrt : F → F) (n : Normal F) : F := norm sqrt n.coordinates

/-- Source: `Normal::operator- (void)`. -/
def neg (n : Normal F) : Normal F := ofContents (-n.coordinates)

/-- Source: `Normal::operator+ (const Normal&)`. -/
def add (n secondNormal : Normal F) : Normal F :=
  ofContents (n.coordinates + secondNormal.coordinates)

/-- Source: `Normal::operator* (const float)`. -/
def mulScalar (n : Normal F) (scalar : F) : Normal F := ofContents (fun i => n.coordinates i * scalar)

/-- Source: `operator* (const float, const Normal&)`. -/
def scalarMul (scalar : F) (normal : Normal F) : Normal F :=
  ofContents (fun i => scalar * normal.GetContents i)

/-- Source: `Normal::operator* (const Vector&)`: the dot product of the two 4-tuples. -/
def dotVector (n : Normal F) (secondVector : Vector F) : F :=
  dot n.coordinates secondVector.GetContents

/-- Source: `Normal::operator+ (const Vector&)`: a `Normal` is built from the sum and converted to
the returned `Vector`. -/
def addVector (n : Normal F) (secondVector : Vector F) : Vector F :=
  Vector.ofNormal (ofContents (n.coordinates + secondVector.GetContents))

/-- Source: `Normal::Normalize`: `coordinates.normalize()`; the value is the Normal after the
call. -/
def Normalize [DecidableEq F] (sqrt : F → F) (n : Normal F) : Option (Normal F) :=
  (normalize sqrt n.coordinates).map Normal.mk

end Normal

/-! ### Matrix -/

namespace Matrix

/-- Source: `Matrix::Matrix()`: the identity. -/
def new : Matrix F := ⟨Affine3f.Identity⟩

/-- Source: `Matrix::Matrix(Eigen::Affine3f copy)`. -/
def ofAffine (copy : Affine3f F) : Matrix F := ⟨copy⟩

/-- Source: `Matrix::GetContents`. -/
def GetContents (m : Matrix F) : Affine3f F := m.matrix

/-- Source: `Matrix::Scale(float scaleFactor)`. -/
def ScaleUniform (scaleFactor : F) : Affine3f F := Affine3f.ofUniformScaling scaleFactor

/-- Source: `Matrix::Scale(float x, float y, float z)`. -/
def Scale (x y z : F) : Affine3f F := Affine3f.ofScaling x y z

/-- Source: `Matrix::InverseScale(float scaleFactor)`. -/
def InverseScaleUniform (scaleFactor : F) : Affine3f F :=
  let invScaleFactor := 1 / scaleFactor
  Affine3f.ofUniformScaling invScaleFactor

/-- Source: `Matrix::InverseScale(float x, float y, float z)`. -/
def InverseScale (x y z : F) : Affine3f F := Affine3f.ofScaling (1 / x) (1 / y) (1 / z)

/-- Source: `Matrix::Rotate(float rads, Vector axis)`:
`(Affine3f) Eigen::AngleAxis<float>(rads, axis.GetContents().topRows(3))`. -/
def Rotate (cos sin : F → F) (rads : F) (axis : Vector F) : Affine3f F :=
  Affine3f.ofAngleAxis cos sin rads (topRows3 axis.GetContents)

/-- Source: `Matrix::InverseRotate(float rads, Vector axis)`:
`(Affine3f) Eigen::AngleAxis<float>(-rads, axis.GetContents().topRows(3))`. -/
def InverseRotate (cos sin : F → F) (rads : F) (axis : Vector F) : Affine3f F :=
  Affine3f.ofAngleAxis cos sin (-rads) (topRows3 axis.GetContents)

/-- Source: `Matrix::Translate(float x, float y, float z)`. -/
def Translate (x y z : F) : Affine3f F := Affine3f.ofTranslation x y z

/-- Source: `Matrix::InverseTranslate(float x, float y, float z)`. -/
def InverseTranslate (x y z : F) : Affine3f F := Affine3f.ofTranslation (-x) (-y) (-z)

/-- Source: `Matrix::operator* (const Matrix&)`. -/
def mul (m secondMatrix : Matrix F) : Matrix F := ⟨m.matrix.mul secondMatrix.GetContents⟩

/-- Source: `Matrix::operator* (const Point&)`. The translation is copied into a dynamic vector,
which is resized to four coefficients (`fresh` is what the resized vector holds, see
`Eigen.resize4`), its fourth coefficient is set to 0, and the vector is added to
`matrix * point.GetContents()`. -/
def mulPoint (fresh : Vector4f F) (m : Matrix F) (point : Point F) : Point F :=
  let translation := resize4 fresh m.matrix.translation
  let translation := Function.update translation 3 0
  Point.ofContents (m.matrix.mulVec4 point.GetContents + translation)

/-- Source: `Matrix::operator* (const Vector&)`: `(Affine3f) matrix.linear() * vector.GetContents()`. -/
def mulVector (m : Matrix F) (vector : Vector F) : Vector F :=
  Vector.ofContents ((Affine3f.ofLinear m.matrix.linear).mulVec4 vector.GetContents)

/-- Source: `Matrix::operator* (const Normal&)`: `tempMatrix` is `(Affine3f) matrix.linear().transpose()`. -/
def mulNormal (m : Matrix F) (normal : Normal F) : Normal F :=
  let tempMatrix : Affine3f F := Affine3f.ofLinear m.matrix.linear.transpose
  Normal.ofContents (tempMatrix.mulVec4 normal.GetContents)

/-- The local variable `translation` of `Matrix::operator* (const Point&)` after its first
three statements: the copy of `matrix.translation()` is resized to four coefficients
(`Eigen.resize4`) and its fourth coefficient is set to 0. -/
def resizedTranslation (fresh : Vector4f F) (m : Matrix F) : Vector4f F :=
  Function.update (resize4 fresh m.matrix.translation) 3 0

/-- Source: `Matrix::operator*= (const Matrix&)`. Matrix objects live in a store addressed by
reference; `self` is the object the operator is called on and `secondMatrix` its argument
(the two references may be the same). The member `matrix` of `self` is assigned
`matrix * secondMatrix.GetContents()`, and the returned reference is `*this`. The value is
the store after the call and the returned reference. -/
def mulAssign (store : Nat → Matrix F) (self secondMatrix : Nat) : (Nat → Matrix F) × Nat :=
  (Function.update store self ⟨(store self).matrix.mul (store secondMatrix).GetContents⟩, self)

end Matrix

end SCPPR

/-! ## Theorems -/

namespace Eigen

theorem topRows3_ofRows {F : Type} (u : Vector3f F) (w : F) : topRows3 (ofRows u w) = u := by
  funext i
  fin_cases i <;> rfl

theorem ofRows_last {F : Type} (u : Vector3f F) (w : F) : ofRows u w 3 = w := rfl

/-- Two 4-tuples with the same first three coefficients and the same last one are equal. -/
theorem vec4_ext {F : Type} {a b : Vector4f F} (h : topRows3 a = topRows3 b) (h3 : a 3 = b 3) :
    a = b := by
  funext i
  have h0 : a 0 = b 0 := congrFun h 0
  have h1 : a 1 = b 1 := congrFun h 1
  have h2 : a 2 = b 2 := congrFun h 2
  fin_cases i
  · exact h0
  · exact h1
  · exact h2
  · exact h3

theorem topRows3_add {F : Type} [Field F] (a b : Vector4f F) :
    topRows3 (a + b) = topRows3 a + topRows3 b := by
  funext i
  fin_cases i <;> rfl

theorem update_last {F : Type} (a : Vector4f F) (c : F) :
    Function.update a 3 c = ![a 0, a 1, a 2, c] := by
  funext i
  fin_cases i <;> simp [Function.update]

theorem topRows3_update_last {F : Type} (a : Vector4f F) (c : F) :
    topRows3 (Function.update a 3 c) = topRows3 a := by
  funext i
  fin_cases i <;> simp [topRows3, Function.update]

theorem topRows3_mulVec4 {F : Type} [Field F] (t : Affine3f F) (v : Vector4f F) :
    topRows3 (t.mulVec4 v) = t.linear.mulVec (topRows3 v) + v 3 • t.translation := by
  simp [Affine3f.mulVec4, topRows3_ofRows]

theorem mulVec4_last {F : Type} [Field F] (t : Affine3f F) (v : Vector4f F) :
    t.mulVec4 v 3 = v 3 := by
  simp [Affine3f.mulVec4, ofRows_last]

/-- The four coefficients of `t * v`, written out. -/
theorem mulVec4_apply {F : Type} [Field F] (t : Affine3f F) (v : Vector4f F) :
    t.mulVec4 v =
      ![t.linear 0 0 * v 0 + t.linear 0 1 * v 1 + t.linear 0 2 * v 2 + v 3 * t.translation 0,
        t.linear 1 0 * v 0 + t.linear 1 1 * v 1 + t.linear 1 2 * v 2 + v 3 * t.translation 1,
        t.linear 2 0 * v 0 + t.linear 2 1 * v 1 + t.linear 2 2 * v 2 + v 3 * t.translation 2,
        v 3] := by
  funext i
  fin_cases i <;>
    simp [Affine3f.mulVec4, ofRows, topRows3, Matrix.mulVec, Matrix.dotProduct,
      Fin.sum_univ_three]

end Eigen

namespace SCPPR

open Eigen

/-! ### What the three application operators compute -/

theorem point_ext_rows {F : Type} {p q : Point F}
    (h : topRows3 p.GetContents = topRows3 q.GetContents) (hw : p.w = q.w) : p = q :=
  Point.ext (vec4_ext h hw)

theorem vector_ext_rows {F : Type} {u v : Vector F}
    (h : topRows3 u.GetContents = topRows3 v.GetContents) (hw : u.w = v.w) : u = v :=
  Vector.ext (vec4_ext h hw)

theorem normal_ext_rows {F : Type} {m n : Normal F}
    (h : topRows3 m.GetContents = topRows3 n.GetContents) (hw : m.w = n.w) : m = n :=
  Normal.ext (vec4_ext h hw)

theorem Matrix.mulNormal_rows {F : Type} [Field F] (m : Matrix F) (n : Normal F) :
    topRows3 (m.mulNormal n).GetContents
      = m.matrix.linear.transpose.mulVec (topRows3 n.GetContents) := by
  simp [Matrix.mulNormal, Normal.GetContents, Normal.ofContents, topRows3_mulVec4,
    Affine3f.ofLinear]

theorem Matrix.mulNormal_w {F : Type} [Field F] (m : Matrix F) (n : Normal F) :
    (m.mulNormal n).w = n.w := by
  simp [Matrix.mulNormal, Normal.w, Normal.GetContents, Normal.ofContents, mulVec4_last]

theorem Matrix.mulVector_rows {F : Type} [Field F] (m : Matrix F) (v : Vector F) :
    topRows3 (m.mulVector v).GetContents = m.matrix.linear.mulVec (topRows3 v.GetContents) := by
  simp [Matrix.mulVector, Vector.GetContents, Vector.ofContents, topRows3_mulVec4,
    Affine3f.ofLinear]

theorem Matrix.mulVector_w {F : Type} [Field F] (m : Matrix F) (v : Vector F) :
    (m.mulVector v).w = v.w := by
  simp [Matrix.mulVector, Vector.w, Vector.GetContents, Vector.ofContents, mulVec4_last]

/-- The x, y, z of `M * p`: the affine product `L p + w t`, plus whatever the storage
allocated by `resize(4)` holds in its first three coefficients. -/
theorem Matrix.mulPoint_rows {F : Type} [Field F] (fresh : Vector4f F) (m : Matrix F)
    (p : Point F) :
    topRows3 (m.mulPoint fresh p).GetContents
      = m.matrix.linear.mulVec (topRows3 p.GetContents) + p.w • m.matrix.translation
        + topRows3 fresh := by
  simp [Matrix.mulPoint, Point.GetContents, Point.ofContents, Point.w, topRows3_add,
    topRows3_mulVec4, topRows3_update_last, resize4]

theorem Matrix.mulPoint_w {F : Type} [Field F] (fresh : Vector4f F) (m : Matrix F)
    (p : Point F) : (m.mulPoint fresh p).w = p.w := by
  simp [Matrix.mulPoint, Point.GetContents, Point.ofContents, Point.w, mulVec4_last]

/-- On a run in which the storage allocated by `resize(4)` still holds the translation in its
first three coefficients, `M * p` is `L p + (1 + w) t` on x, y, z and keeps w. -/
theorem Matrix.mulPoint_of_kept {F : Type} [Field F] (fresh : Vector4f F) (m : Matrix F)
    (p : Point F) (hkept : topRows3 fresh = m.matrix.translation) :
    topRows3 (m.mulPoint fresh p).GetContents
        = m.matrix.linear.mulVec (topRows3 p.GetContents) + (1 + p.w) • m.matrix.translation
      ∧ (m.mulPoint fresh p).w = p.w := by
  refine ⟨?_, Matrix.mulPoint_w fresh m p⟩
  rw [Matrix.mulPoint_rows, hkept, add_smul, one_smul, add_assoc]
  congr 1
  exact add_comm _ _

/-- On runs in which every `resize(4)` storage still holds the translation of the matrix being
applied, applying a product is applying the right factor first and then the left one, for
every stored w. -/
theorem Matrix.mul_mulPoint_of_kept {F : Type} [Field F] (A B : Matrix F) (p : Point F)
    (f1 f2 f3 : Vector4f F) (h1 : topRows3 f1 = (A.mul B).matrix.translation)
    (h2 : topRows3 f2 = B.matrix.translation) (h3 : topRows3 f3 = A.matrix.translation) :
    (A.mul B).mulPoint f1 p = A.mulPoint f3 (B.mulPoint f2 p) := by
  apply point_ext_rows
  · rw [(Matrix.mulPoint_of_kept f1 (A.mul B) p h1).1,
      (Matrix.mulPoint_of_kept f3 A (B.mulPoint f2 p) h3).1,
      (Matrix.mulPoint_of_kept f2 B p h2).1, Matrix.mulPoint_w]
    simp only [Matrix.mul, Affine3f.mul, Matrix.GetContents, Matrix.mulVec_add,
      Matrix.mulVec_smul, Matrix.mulVec_mulVec, smul_add]
    abel
  · rw [Matrix.mulPoint_w, Matrix.mulPoint_w, Matrix.mulPoint_w]

/-- The default-constructed Matrix returns every Vector unchanged. -/
theorem Matrix.new_mulVector {F : Type} [Field F] (v : Vector F) :
    (Matrix.new : Matrix F).mulVector v = v := by
  apply vector_ext_rows
  · rw [Matrix.mulVector_rows]
    simp [Matrix.new, Affine3f.Identity]
  · rw [Matrix.mulVector_w]

/-- The default-constructed Matrix returns every Normal unchanged. -/
theorem Matrix.new_mulNormal {F : Type} [Field F] (n : Normal F) :
    (Matrix.new : Matrix F).mulNormal n = n := by
  apply normal_ext_rows
  · rw [Matrix.mulNormal_rows]
    simp [Matrix.new, Affine3f.Identity]
  · rw [Matrix.mulNormal_w]

/-- The default-constructed Matrix returns a Point unchanged on a run in which the storage
allocated by `resize(4)` holds zeros in its first three coefficients (the translation of the
identity). -/
theorem Matrix.new_mulPoint_of_kept {F : Type} [Field F] (fresh : Vector4f F) (p : Point F)
    (hkept : topRows3 fresh = 0) : (Matrix.new : Matrix F).mulPoint fresh p = p := by
  apply point_ext_rows
  · rw [Matrix.mulPoint_rows, hkept]
    simp [Matrix.new, Affine3f.Identity]
  · rw [Matrix.mulPoint_w]

/-- C1 (counterexample). The claim "for invertible L, M * n is the inverse of the transpose of
L applied to n" fails for M = Matrix(Scale(2, 2, 2)) and n = Normal(1, 0, 0): L is
invertible, and the x, y, z of M * n are not the inverse-transpose of L applied to n (the
code yields (2, 0, 0), the inverse-transpose yields (1/2, 0, 0)). -/
theorem C1_counterexample :
    IsUnit (Matrix.ofAffine (Matrix.Scale (2 : ℚ) 2 2)).matrix.linear.det ∧
    topRows3 ((Matrix.ofAffine (Matrix.Scale (2 : ℚ) 2 2)).mulNormal
        (Normal.ofXYZ 1 0 0)).GetContents
      ≠ ((Matrix.ofAffine (Matrix.Scale (2 : ℚ) 2 2)).matrix.linear.transpose)⁻¹.mulVec
          (topRows3 (Normal.ofXYZ (1 : ℚ) 0 0).GetContents) := by
  have hdet : IsUnit (Matrix.ofAffine (Matrix.Scale (2 : ℚ) 2 2)).matrix.linear.det := by
    simp [Matrix.ofAffine, Matrix.Scale, Affine3f.ofScaling, Matrix.det_diagonal,
      Fin.prod_univ_three]
  refine ⟨hdet, fun h => ?_⟩
  rw [Matrix.mulNormal_rows] at h
  have hT :
      IsUnit (Matrix.ofAffine (Matrix.Scale (2 : ℚ) 2 2)).matrix.linear.transpose.det := by
    rw [Matrix.det_transpose]; exact hdet
  have h2 := congrArg
    ((Matrix.ofAffine (Matrix.Scale (2 : ℚ) 2 2)).matrix.linear.transpose.mulVec) h
  rw [Matrix.mulVec_mulVec, Matrix.mulVec_mulVec, Matrix.mul_nonsing_inv _ hT,
    Matrix.one_mulVec] at h2
  have h3 := congrFun h2 0
  simp [Matrix.ofAffine, Matrix.Scale, Affine3f.ofScaling, Matrix.diagonal_transpose,
    Matrix.mulVec_diagonal, topRows3, Normal.ofXYZ, Normal.GetContents] at h3
  norm_num at h3

/-- C1 (amended). For every Matrix M with linear block L and every Normal n, M * n is the
Normal whose x, y, z are the transpose of L applied to n's x, y, z and whose w is n's w.
The inverse of the transpose of L is applied to n by the operator of a Matrix N whose linear
block is the inverse of L (N.linear * L = 1). -/
theorem C1_mulNormal_transpose {F : Type} [Field F] (M : Matrix F) (n : Normal F) :
    topRows3 (M.mulNormal n).GetContents
        = M.matrix.linear.transpose.mulVec (topRows3 n.GetContents)
      ∧ (M.mulNormal n).w = n.w
      ∧ ∀ N : Matrix F, N.matrix.linear * M.matrix.linear = 1 →
          topRows3 (N.mulNormal n).GetContents
            = (M.matrix.linear.transpose)⁻¹.mulVec (topRows3 n.GetContents) := by
  refine ⟨Matrix.mulNormal_rows M n, Matrix.mulNormal_w M n, fun N hN => ?_⟩
  rw [Matrix.mulNormal_rows]
  have h : M.matrix.linear.transpose * N.matrix.linear.transpose = 1 := by
    rw [← Matrix.transpose_mul, hN, Matrix.transpose_one]
  rw [Matrix.inv_eq_right_inv h]

/-- C1 (witness). The amended statement at M = Matrix(Scale(2, 2, 2)),
N = Matrix(InverseScale(2, 2, 2)) and n = Normal(1, 0, 0). -/
theorem C1_mulNormal_transpose_witness :
    (Matrix.ofAffine (Matrix.InverseScale (2 : ℚ) 2 2)).matrix.linear
        * (Matrix.ofAffine (Matrix.Scale (2 : ℚ) 2 2)).matrix.linear = 1
    ∧ topRows3 ((Matrix.ofAffine (Matrix.InverseScale (2 : ℚ) 2 2)).mulNormal
          (Normal.ofXYZ 1 0 0)).GetContents
        = ((Matrix.ofAffine (Matrix.Scale (2 : ℚ) 2 2)).matrix.linear.transpose)⁻¹.mulVec
            (topRows3 (Normal.ofXYZ (1 : ℚ) 0 0).GetContents) :=
  have h : (Matrix.ofAffine (Matrix.InverseScale (2 : ℚ) 2 2)).matrix.linear
      * (Matrix.ofAffine (Matrix.Scale (2 : ℚ) 2 2)).matrix.linear = 1 := by
    simp only [Matrix.ofAffine, Matrix.InverseScale, Matrix.Scale, Affine3f.ofScaling]
    have hone : (fun i => (![1 / 2, 1 / 2, 1 / 2] : Fin 3 → ℚ) i * (![2, 2, 2] : Fin 3 → ℚ) i)
        = fun _ => 1 := by
      funext i
      fin_cases i <;> norm_num
    rw [Matrix.diagonal_mul_diagonal, hone, Matrix.diagonal_one]
  ⟨h, (C1_mulNormal_transpose (Matrix.ofAffine (Matrix.Scale (2 : ℚ) 2 2))
    (Normal.ofXYZ 1 0 0)).2.2 (Matrix.ofAffine (Matrix.InverseScale (2 : ℚ) 2 2)) h⟩

/-- C3 (failing input). M = Matrix(Translate(1, 2, 3)) applied to p = Point(4, 5, 6), on a
run in which the storage allocated by `translation.resize(4)` holds zeros: p has w = 0, the
result is Point(4, 5, 6), and its x, y, z are not L applied to p plus (1, 2, 3), which
would be (5, 7, 9): what is added after the matrix multiply is the content of the new
storage, not (tx, ty, tz, 0). -/
theorem C3_mulPoint_translation_lost :
    (Point.ofXYZ (4 : ℚ) 5 6).w = 0
    ∧ Matrix.mulPoint ![0, 0, 0, 0] (Matrix.ofAffine (Matrix.Translate (1 : ℚ) 2 3))
        (Point.ofXYZ 4 5 6) = Point.ofXYZ 4 5 6
    ∧ topRows3 (Matrix.mulPoint ![0, 0, 0, 0] (Matrix.ofAffine (Matrix.Translate (1 : ℚ) 2 3))
        (Point.ofXYZ 4 5 6)).GetContents
      ≠ (Matrix.ofAffine (Matrix.Translate (1 : ℚ) 2 3)).matrix.linear.mulVec
            (topRows3 (Point.ofXYZ (4 : ℚ) 5 6).GetContents)
          + (Matrix.ofAffine (Matrix.Translate (1 : ℚ) 2 3)).matrix.translation := by
  have hev : Matrix.mulPoint ![0, 0, 0, 0] (Matrix.ofAffine (Matrix.Translate (1 : ℚ) 2 3))
      (Point.ofXYZ 4 5 6) = Point.ofXYZ 4 5 6 := by
    ext i
    fin_cases i <;>
      simp [Matrix.mulPoint, Matrix.ofAffine, Matrix.Translate, Point.ofXYZ, Point.ofContents,
        Point.GetContents, resize4, Affine3f.ofTranslation, mulVec4_apply, update_last]
  refine ⟨rfl, hev, ?_⟩
  rw [hev]
  intro h
  have h0 := congrFun h 0
  simp [Matrix.ofAffine, Matrix.Translate, Point.ofXYZ, Point.GetContents,
    Affine3f.ofTranslation, topRows3] at h0

/-- C4. For every Matrix M with linear block L and translation t and every Vector v, M * v is
the Vector whose x, y, z are L applied to v's x, y, z and whose w is v's w, and a Matrix
with the same linear block and any other translation gives the same Vector. -/
theorem C4_mulVector_linear_only {F : Type} [Field F] (L : Matrix3f F) (t t' : Vector3f F)
    (v : Vector F) :
    topRows3 ((Matrix.ofAffine ⟨L, t⟩).mulVector v).GetContents
        = L.mulVec (topRows3 v.GetContents)
      ∧ ((Matrix.ofAffine ⟨L, t⟩).mulVector v).w = v.w
      ∧ (Matrix.ofAffine ⟨L, t⟩).mulVector v = (Matrix.ofAffine ⟨L, t'⟩).mulVector v :=
  ⟨Matrix.mulVector_rows _ v, Matrix.mulVector_w _ v, rfl⟩

/-- C5 (counterexample). The raw 4-tuple constructors of Vector, Point and Normal applied to
(0, 0, 0, 1), and Vector::SetContents with the same 4-tuple, give a value whose w is 1,
not 0. -/
theorem C5_counterexample :
    (Vector.ofContents ![(0 : ℚ), 0, 0, 1]).w ≠ 0
    ∧ (Point.ofContents ![(0 : ℚ), 0, 0, 1]).w ≠ 0
    ∧ (Normal.ofContents ![(0 : ℚ), 0, 0, 1]).w ≠ 0
    ∧ ((Vector.new : Vector ℚ).SetContents ![0, 0, 0, 1]).w ≠ 0 := by
  simp [Vector.ofContents, Point.ofContents, Normal.ofContents, Vector.SetContents, Vector.w,
    Point.w, Normal.w, Vector.GetContents, Point.GetContents, Normal.GetContents]

/-- C5 (amended). For Vector, Point and Normal: the default constructor, the three-float
constructor and the float-array constructor produce w = 0; the raw 4-tuple constructor and
SetContents store the w they are given; the copy constructor and the cross-type conversion
constructors produce the w of their argument; SetX, SetY and SetZ leave w unchanged. -/
theorem C5_w_of_constructors {F : Type} [Field F] (x y z c : F) (a : Fin 4 → F)
    (u : Vector4f F) (v : Vector F) (p : Point F) (n : Normal F) :
    ((Vector.new : Vector F).w = 0 ∧ (Point.new : Point F).w = 0
        ∧ (Normal.new : Normal F).w = 0)
    ∧ ((Vector.ofXYZ x y z).w = 0 ∧ (Point.ofXYZ x y z).w = 0 ∧ (Normal.ofXYZ x y z).w = 0)
    ∧ ((Vector.ofArray a).w = 0 ∧ (Point.ofArray a).w = 0 ∧ (Normal.ofArray a).w = 0)
    ∧ ((Vector.ofContents u).w = u 3 ∧ (Point.ofContents u).w = u 3
        ∧ (Normal.ofContents u).w = u 3)
    ∧ ((Vector.copy v).w = v.w ∧ (Point.copy p).w = p.w ∧ (Normal.copy n).w = n.w)
    ∧ ((Vector.ofNormal n).w = n.w ∧ (Vector.ofPoint p).w = p.w
        ∧ (Point.ofNormal n).w = n.w ∧ (Point.ofVector v).w = v.w
        ∧ (Normal.ofPoint p).w = p.w ∧ (Normal.ofVector v).w = v.w)
    ∧ ((v.SetX c).w = v.w ∧ (v.SetY c).w = v.w ∧ (v.SetZ c).w = v.w
        ∧ (p.SetX c).w = p.w ∧ (p.SetY c).w = p.w ∧ (p.SetZ c).w = p.w
        ∧ (n.SetX c).w = n.w ∧ (n.SetY c).w = n.w ∧ (n.SetZ c).w = n.w)
    ∧ ((v.SetContents u).w = u 3 ∧ (p.SetContents u).w = u 3 ∧ (n.SetContents u).w = u 3) := by
  refine ⟨⟨rfl, rfl, rfl⟩, ⟨rfl, rfl, rfl⟩, ?_, ⟨rfl, rfl, rfl⟩, ⟨rfl, rfl, rfl⟩,
    ⟨rfl, rfl, rfl, rfl, rfl, rfl⟩, ?_, ⟨rfl, rfl, rfl⟩⟩
  · simp [Vector.ofArray, Point.ofArray, Normal.ofArray, Vector.w, Point.w, Normal.w,
      Vector.GetContents, Point.GetContents, Normal.GetContents]
  · simp [Vector.SetX, Vector.SetY, Vector.SetZ, Point.SetX, Point.SetY, Point.SetZ,
      Normal.SetX, Normal.SetY, Normal.SetZ, Vector.w, Point.w, Normal.w,
      Vector.GetContents, Point.GetContents, Normal.GetContents, Function.update]

/-- C6 (counterexample). For the Vector built by the raw 4-tuple constructor from
(0, 0, 0, 1), GetSquaredMagnitude is not x*x + y*y + z*z (it is 1, the sum is 0). -/
theorem C6_counterexample :
    (Vector.ofContents ![(0 : ℚ), 0, 0, 1]).GetSquaredMagnitude
      ≠ (Vector.ofContents ![(0 : ℚ), 0, 0, 1]).GetX
            * (Vector.ofContents ![(0 : ℚ), 0, 0, 1]).GetX
        + (Vector.ofContents ![(0 : ℚ), 0, 0, 1]).GetY
            * (Vector.ofContents ![(0 : ℚ), 0, 0, 1]).GetY
        + (Vector.ofContents ![(0 : ℚ), 0, 0, 1]).GetZ
            * (Vector.ofContents ![(0 : ℚ), 0, 0, 1]).GetZ := by
  simp [Vector.ofContents, Vector.GetSquaredMagnitude, squaredNorm, dot, Vector.GetX,
    Vector.GetY, Vector.GetZ]

/-- C6 (amended). For every Vector v and every Normal n, GetSquaredMagnitude returns
x*x + y*y + z*z + w*w and GetMagnitude returns its square root; when the stored w is 0,
GetSquaredMagnitude returns x*x + y*y + z*z and GetMagnitude returns the square root of
that. -/
theorem C6_magnitude_over_four {F : Type} [Field F] (sqrt : F → F) (v : Vector F)
    (n : Normal F) :
    v.GetSquaredMagnitude = v.GetX * v.GetX + v.GetY * v.GetY + v.GetZ * v.GetZ + v.w * v.w
    ∧ v.GetMagnitude sqrt
        = sqrt (v.GetX * v.GetX + v.GetY * v.GetY + v.GetZ * v.GetZ + v.w * v.w)
    ∧ n.GetSquaredMagnitude = n.GetX * n.GetX + n.GetY * n.GetY + n.GetZ * n.GetZ + n.w * n.w
    ∧ n.GetMagnitude sqrt
        = sqrt (n.GetX * n.GetX + n.GetY * n.GetY + n.GetZ * n.GetZ + n.w * n.w)
    ∧ (v.w = 0 →
        v.GetSquaredMagnitude = v.GetX * v.GetX + v.GetY * v.GetY + v.GetZ * v.GetZ
        ∧ v.GetMagnitude sqrt = sqrt (v.GetX * v.GetX + v.GetY * v.GetY + v.GetZ * v.GetZ))
    ∧ (n.w = 0 →
        n.GetSquaredMagnitude = n.GetX * n.GetX + n.GetY * n.GetY + n.GetZ * n.GetZ
        ∧ n.GetMagnitude sqrt = sqrt (n.GetX * n.GetX + n.GetY * n.GetY + n.GetZ * n.GetZ)) := by
  have hv : v.GetSquaredMagnitude
      = v.GetX * v.GetX + v.GetY * v.GetY + v.GetZ * v.GetZ + v.w * v.w := rfl
  have hn : n.GetSquaredMagnitude
      = n.GetX * n.GetX + n.GetY * n.GetY + n.GetZ * n.GetZ + n.w * n.w := rfl
  have hvm : v.GetMagnitude sqrt = sqrt v.GetSquaredMagnitude := rfl
  have hnm : n.GetMagnitude sqrt = sqrt n.GetSquaredMagnitude := rfl
  refine ⟨hv, by rw [hvm, hv], hn, by rw [hnm, hn], fun h0 => ?_, fun h0 => ?_⟩
  · rw [hvm, hv, h0]
    simp
  · rw [hnm, hn, h0]
    simp

/-- C6 (witness). The amended statement at Vector(1, 2, 2) and Normal(1, 2, 2), whose w
is 0. -/
theorem C6_magnitude_over_four_witness :
    (Vector.ofXYZ (1 : ℚ) 2 2).w = 0 ∧ (Normal.ofXYZ (1 : ℚ) 2 2).w = 0
    ∧ (Vector.ofXYZ (1 : ℚ) 2 2).GetSquaredMagnitude
        = (Vector.ofXYZ (1 : ℚ) 2 2).GetX * (Vector.ofXYZ (1 : ℚ) 2 2).GetX
          + (Vector.ofXYZ (1 : ℚ) 2 2).GetY * (Vector.ofXYZ (1 : ℚ) 2 2).GetY
          + (Vector.ofXYZ (1 : ℚ) 2 2).GetZ * (Vector.ofXYZ (1 : ℚ) 2 2).GetZ
    ∧ (Normal.ofXYZ (1 : ℚ) 2 2).GetSquaredMagnitude
        = (Normal.ofXYZ (1 : ℚ) 2 2).GetX * (Normal.ofXYZ (1 : ℚ) 2 2).GetX
          + (Normal.ofXYZ (1 : ℚ) 2 2).GetY * (Normal.ofXYZ (1 : ℚ) 2 2).GetY
          + (Normal.ofXYZ (1 : ℚ) 2 2).GetZ * (Normal.ofXYZ (1 : ℚ) 2 2).GetZ :=
  ⟨rfl, rfl,
    ((C6_magnitude_over_four (fun x => x) (Vector.ofXYZ (1 : ℚ) 2 2)
      (Normal.ofXYZ (1 : ℚ) 2 2)).2.2.2.2.1 rfl).1,
    ((C6_magnitude_over_four (fun x => x) (Vector.ofXYZ (1 : ℚ) 2 2)
      (Normal.ofXYZ (1 : ℚ) 2 2)).2.2.2.2.2 rfl).1⟩

/-- C7 (failing input). A and B the default (identity) Matrix and p the default Point, on a
run in which each storage allocated by `translation.resize(4)` holds (1, 0, 0, _):
(A * B) * p is Point(1, 0, 0) while A * (B * p) is Point(2, 0, 0), so the two differ. -/
theorem C7_composition_on_point_fails :
    Matrix.mulPoint ![1, 0, 0, 0] ((Matrix.new : Matrix ℚ).mul Matrix.new) Point.new
        = Point.ofXYZ 1 0 0
    ∧ Matrix.mulPoint ![1, 0, 0, 0] (Matrix.new : Matrix ℚ)
          (Matrix.mulPoint ![1, 0, 0, 0] Matrix.new Point.new)
        = Point.ofXYZ 2 0 0
    ∧ Matrix.mulPoint ![1, 0, 0, 0] ((Matrix.new : Matrix ℚ).mul Matrix.new) Point.new
        ≠ Matrix.mulPoint ![1, 0, 0, 0] (Matrix.new : Matrix ℚ)
            (Matrix.mulPoint ![1, 0, 0, 0] Matrix.new Point.new) := by
  have hl : Matrix.mulPoint ![1, 0, 0, 0] ((Matrix.new : Matrix ℚ).mul Matrix.new) Point.new
      = Point.ofXYZ 1 0 0 := by
    ext i
    fin_cases i <;>
      simp [Matrix.mulPoint, Matrix.mul, Matrix.new, Matrix.GetContents, Affine3f.mul,
        Affine3f.Identity, Point.new, Point.ofXYZ, Point.ofContents, Point.GetContents,
        resize4, mulVec4_apply, update_last]
  have hr : Matrix.mulPoint ![1, 0, 0, 0] (Matrix.new : Matrix ℚ)
      (Matrix.mulPoint ![1, 0, 0, 0] Matrix.new Point.new) = Point.ofXYZ 2 0 0 := by
    ext i
    fin_cases i <;>
      simp [Matrix.mulPoint, Matrix.new, Affine3f.Identity, Point.new, Point.ofXYZ,
        Point.ofContents, Point.GetContents, resize4, mulVec4_apply, update_last]
    norm_num
  refine ⟨hl, hr, ?_⟩
  rw [hl, hr]
  intro h
  have h0 := congrFun (congrArg Point.coordinates h) 0
  simp [Point.ofXYZ] at h0

/-- C8 (counterexample). For A the shear with linear block [1 1 0; 0 1 0; 0 0 1],
B = Matrix(Scale(2, 1, 1)) and n = Normal(1, 0, 0), (A * B) * n differs from A * (B * n)
(the y coordinates are 1 and 2). -/
theorem C8_counterexample :
    ((Matrix.ofAffine ⟨!![(1 : ℚ), 1, 0; 0, 1, 0; 0, 0, 1], ![0, 0, 0]⟩).mul
        (Matrix.ofAffine (Matrix.Scale 2 1 1))).mulNormal (Normal.ofXYZ 1 0 0)
      ≠ (Matrix.ofAffine ⟨!![(1 : ℚ), 1, 0; 0, 1, 0; 0, 0, 1], ![0, 0, 0]⟩).mulNormal
          ((Matrix.ofAffine (Matrix.Scale 2 1 1)).mulNormal (Normal.ofXYZ 1 0 0)) := by
  intro h
  have h1 := congrFun (congrArg Normal.coordinates h) 1
  simp [Matrix.mulNormal, Matrix.mul, Matrix.ofAffine, Matrix.Scale, Matrix.GetContents,
    Affine3f.mul, Affine3f.ofScaling, Affine3f.ofLinear, Normal.ofXYZ, Normal.ofContents,
    Normal.GetContents, mulVec4_apply, Matrix.mul_apply, Fin.sum_univ_three,
    Matrix.diagonal_apply, Matrix.vecMul_diagonal] at h1

/-- C9 (failing input). The default-constructed Matrix returns every Vector and every Normal
with the same four coordinates, but applied to Point(0, 0, 0) on a run in which the storage
allocated by `translation.resize(4)` holds (1, 0, 0, _) it returns Point(1, 0, 0), which is
not the input. -/
theorem C9_identity_on_point_fails :
    (∀ v : Vector ℚ, (Matrix.new : Matrix ℚ).mulVector v = v)
    ∧ (∀ n : Normal ℚ, (Matrix.new : Matrix ℚ).mulNormal n = n)
    ∧ Matrix.mulPoint ![1, 0, 0, 0] (Matrix.new : Matrix ℚ) (Point.ofXYZ 0 0 0)
        = Point.ofXYZ 1 0 0
    ∧ Matrix.mulPoint ![1, 0, 0, 0] (Matrix.new : Matrix ℚ) (Point.ofXYZ 0 0 0)
        ≠ Point.ofXYZ 0 0 0 := by
  have hp : Matrix.mulPoint ![1, 0, 0, 0] (Matrix.new : Matrix ℚ) (Point.ofXYZ 0 0 0)
      = Point.ofXYZ 1 0 0 := by
    ext i
    fin_cases i <;>
      simp [Matrix.mulPoint, Matrix.new, Affine3f.Identity, Point.ofXYZ,
        Point.ofContents, Point.GetContents, resize4, mulVec4_apply, update_last]
  refine ⟨Matrix.new_mulVector, Matrix.new_mulNormal, hp, ?_⟩
  rw [hp]
  intro h
  have h0 := congrFun (congrArg Point.coordinates h) 0
  simp [Point.ofXYZ] at h0

/-- C10. For every translation T = Matrix(Translate(x, y, z)) and every Vector v,
T * v == v (all four coordinates). -/
theorem C10_translate_fixes_vector {F : Type} [Field F] (x y z : F) (v : Vector F) :
    (Matrix.ofAffine (Matrix.Translate x y z)).mulVector v = v := by
  apply vector_ext_rows
  · rw [Matrix.mulVector_rows]
    simp [Matrix.ofAffine, Matrix.Translate, Affine3f.ofTranslation]
  · rw [Matrix.mulVector_w]


/-- Two Matrices with the same linear block and the same translation are equal. -/
theorem matrix_ext_blocks {F : Type} {A B : Matrix F}
    (hl : A.matrix.linear = B.matrix.linear)
    (ht : A.matrix.translation = B.matrix.translation) : A = B := by
  cases A with
  | mk a =>
    cases B with
    | mk b =>
      cases a
      cases b
      simp only at hl ht
      subst hl
      subst ht
      rfl

theorem Point.addVector_rows {F : Type} [Field F] (P : Point F) (v : Vector F) :
    topRows3 (P.addVector v).GetContents = topRows3 P.GetContents + topRows3 v.GetContents :=
  topRows3_add _ _

theorem Vector.ofXYZ_rows {F : Type} [Field F] (x y z : F) :
    topRows3 (Vector.ofXYZ x y z).GetContents = ![x, y, z] := rfl

/-- On a run in which the storage allocated by `resize(4)` still holds the translation,
Matrix(Translate(x, y, z)) maps a Point P with w = 0 to P + Vector(x, y, z). -/
theorem Matrix.translate_mulPoint_of_kept {F : Type} [Field F] (fresh : Vector4f F)
    (x y z : F) (P : Point F) (hkept : topRows3 fresh = ![x, y, z]) (hw : P.w = 0) :
    (Matrix.ofAffine (Matrix.Translate x y z)).mulPoint fresh P
      = P.addVector (Vector.ofXYZ x y z) := by
  apply point_ext_rows
  · rw [Matrix.mulPoint_rows, hkept, hw, Point.addVector_rows, Vector.ofXYZ_rows]
    simp [Matrix.ofAffine, Matrix.Translate, Affine3f.ofTranslation]
  · rw [Matrix.mulPoint_w]
    show P.coordinates 3 = P.coordinates 3 + 0
    rw [add_zero]

/-- The sum P + Vector(x, y, z) differs from P exactly when (x, y, z) is not the zero triple. -/
theorem Point.addVector_ne_self_iff {F : Type} [Field F] (x y z : F) (P : Point F) :
    P.addVector (Vector.ofXYZ x y z) ≠ P ↔ ¬ (x = 0 ∧ y = 0 ∧ z = 0) := by
  constructor
  · intro h hz
    apply h
    obtain ⟨hx, hy, hz⟩ := hz
    subst hx
    subst hy
    subst hz
    ext i
    show P.coordinates i + (![0, 0, 0, 0] : Fin 4 → F) i = P.coordinates i
    fin_cases i <;> simp
  · intro h heq
    apply h
    have h0 : P.coordinates 0 + x = P.coordinates 0 :=
      congrFun (congrArg Point.coordinates heq) 0
    have h1 : P.coordinates 1 + y = P.coordinates 1 :=
      congrFun (congrArg Point.coordinates heq) 1
    have h2 : P.coordinates 2 + z = P.coordinates 2 :=
      congrFun (congrArg Point.coordinates heq) 2
    exact ⟨by simpa using h0, by simpa using h1, by simpa using h2⟩

/-- C11 (failing input). T = Matrix(Translate(1, 2, 3)) applied to P = Point(0, 0, 0), on a
run in which the storage allocated by `translation.resize(4)` holds zeros: P has w = 0, T * P
is Point(0, 0, 0), that is P itself although the translation is not the zero triple, while
P + Vector(1, 2, 3) is Point(1, 2, 3); so T * P differs from P + Vector(1, 2, 3). -/
theorem C11_translate_point_lost :
    (Point.ofXYZ (0 : ℚ) 0 0).w = 0
    ∧ Matrix.mulPoint ![0, 0, 0, 0] (Matrix.ofAffine (Matrix.Translate (1 : ℚ) 2 3))
        (Point.ofXYZ 0 0 0) = Point.ofXYZ 0 0 0
    ∧ (Point.ofXYZ (0 : ℚ) 0 0).addVector (Vector.ofXYZ 1 2 3) = Point.ofXYZ 1 2 3
    ∧ Matrix.mulPoint ![0, 0, 0, 0] (Matrix.ofAffine (Matrix.Translate (1 : ℚ) 2 3))
        (Point.ofXYZ 0 0 0) ≠ (Point.ofXYZ (0 : ℚ) 0 0).addVector (Vector.ofXYZ 1 2 3) := by
  have hev : Matrix.mulPoint ![0, 0, 0, 0] (Matrix.ofAffine (Matrix.Translate (1 : ℚ) 2 3))
      (Point.ofXYZ 0 0 0) = Point.ofXYZ 0 0 0 := by
    ext i
    fin_cases i <;>
      simp [Matrix.mulPoint, Matrix.ofAffine, Matrix.Translate, Point.ofXYZ, Point.ofContents,
        Point.GetContents, resize4, Affine3f.ofTranslation, mulVec4_apply, update_last]
  have hadd : (Point.ofXYZ (0 : ℚ) 0 0).addVector (Vector.ofXYZ 1 2 3) = Point.ofXYZ 1 2 3 := by
    ext i
    fin_cases i <;>
      simp [Point.addVector, Point.ofContents, Point.ofXYZ, Vector.ofXYZ, Vector.GetContents]
  refine ⟨rfl, hev, hadd, ?_⟩
  rw [hev, hadd]
  intro h
  have h0 := congrFun (congrArg Point.coordinates h) 0
  simp [Point.ofXYZ] at h0


/-- For nonzero factors, Matrix(InverseScale(x, y, z)) * Matrix(Scale(x, y, z)) is the
identity matrix. -/
theorem Matrix.inverseScale_mul_scale {F : Type} [Field F] (x y z : F) (hx : x ≠ 0)
    (hy : y ≠ 0) (hz : z ≠ 0) :
    (Matrix.ofAffine (Matrix.InverseScale x y z)).mul (Matrix.ofAffine (Matrix.Scale x y z))
      = Matrix.new := by
  apply matrix_ext_blocks
  · have hone : (fun i => (![1 / x, 1 / y, 1 / z] : Fin 3 → F) i * (![x, y, z] : Fin 3 → F) i)
        = fun _ => 1 := by
      funext i
      fin_cases i <;> simp [hx, hy, hz]
    simp only [Matrix.mul, Matrix.ofAffine, Matrix.InverseScale, Matrix.Scale,
      Matrix.GetContents, Matrix.new, Affine3f.mul, Affine3f.ofScaling, Affine3f.Identity]
    rw [Matrix.diagonal_mul_diagonal, hone, Matrix.diagonal_one]
  · simp [Matrix.mul, Matrix.ofAffine, Matrix.InverseScale, Matrix.Scale,
      Matrix.GetContents, Matrix.new, Affine3f.mul, Affine3f.ofScaling, Affine3f.Identity]

/-- For a nonzero factor, Matrix(InverseScale(s)) * Matrix(Scale(s)) is the identity matrix. -/
theorem Matrix.inverseScaleUniform_mul_scaleUniform {F : Type} [Field F] (s : F)
    (hs : s ≠ 0) :
    (Matrix.ofAffine (Matrix.InverseScaleUniform s)).mul
        (Matrix.ofAffine (Matrix.ScaleUniform s)) = Matrix.new := by
  apply matrix_ext_blocks
  · have hone : (fun _ : Fin 3 => 1 / s * s) = fun _ => 1 := by
      funext i
      simp [hs]
    simp only [Matrix.mul, Matrix.ofAffine, Matrix.InverseScaleUniform, Matrix.ScaleUniform,
      Matrix.GetContents, Matrix.new, Affine3f.mul, Affine3f.ofUniformScaling,
      Affine3f.Identity]
    rw [Matrix.diagonal_mul_diagonal, hone, Matrix.diagonal_one]
  · simp [Matrix.mul, Matrix.ofAffine, Matrix.InverseScaleUniform, Matrix.ScaleUniform,
      Matrix.GetContents, Matrix.new, Affine3f.mul, Affine3f.ofUniformScaling,
      Affine3f.Identity]

/-- Matrix(InverseTranslate(x, y, z)) * Matrix(Translate(x, y, z)) is the identity matrix. -/
theorem Matrix.inverseTranslate_mul_translate {F : Type} [Field F] (x y z : F) :
    (Matrix.ofAffine (Matrix.InverseTranslate x y z)).mul
        (Matrix.ofAffine (Matrix.Translate x y z)) = Matrix.new := by
  apply matrix_ext_blocks
  · simp [Matrix.mul, Matrix.ofAffine, Matrix.InverseTranslate, Matrix.Translate,
      Matrix.GetContents, Matrix.new, Affine3f.mul, Affine3f.ofTranslation, Affine3f.Identity]
  · funext i
    fin_cases i <;>
      simp [Matrix.mul, Matrix.ofAffine, Matrix.InverseTranslate, Matrix.Translate,
        Matrix.GetContents, Matrix.new, Affine3f.mul, Affine3f.ofTranslation,
        Affine3f.Identity]

/-- The identity applied to Point(4, 5, 6) when the storage allocated by `resize(4)` holds
(1, 0, 0, _). -/
theorem Matrix.new_mulPoint_junk :
    Matrix.mulPoint ![1, 0, 0, 0] (Matrix.new : Matrix ℚ) (Point.ofXYZ 4 5 6)
      = Point.ofXYZ 5 5 6 := by
  ext i
  fin_cases i <;>
    simp [Matrix.mulPoint, Matrix.new, Affine3f.Identity, Point.ofXYZ,
      Point.ofContents, Point.GetContents, resize4, mulVec4_apply, update_last]
  norm_num

theorem point_456_ne : (Point.ofXYZ (5 : ℚ) 5 6) ≠ Point.ofXYZ 4 5 6 := by
  intro h
  have h0 := congrFun (congrArg Point.coordinates h) 0
  simp [Point.ofXYZ] at h0

/-- C12 (failing input). With the factors 2, 3, 4 (and the uniform factor 2),
Matrix(InverseScale) * Matrix(Scale) returns every Vector and every Normal unchanged, but
applied to Point(4, 5, 6) on a run in which the storage allocated by
`translation.resize(4)` holds (1, 0, 0, _) it returns Point(5, 5, 6), which is not the
input. -/
theorem C12_scale_roundtrip_point_fails :
    (∀ v : Vector ℚ,
        ((Matrix.ofAffine (Matrix.InverseScale (2 : ℚ) 3 4)).mul
          (Matrix.ofAffine (Matrix.Scale 2 3 4))).mulVector v = v)
    ∧ (∀ n : Normal ℚ,
        ((Matrix.ofAffine (Matrix.InverseScale (2 : ℚ) 3 4)).mul
          (Matrix.ofAffine (Matrix.Scale 2 3 4))).mulNormal n = n)
    ∧ (∀ v : Vector ℚ,
        ((Matrix.ofAffine (Matrix.InverseScaleUniform (2 : ℚ))).mul
          (Matrix.ofAffine (Matrix.ScaleUniform 2))).mulVector v = v)
    ∧ (∀ n : Normal ℚ,
        ((Matrix.ofAffine (Matrix.InverseScaleUniform (2 : ℚ))).mul
          (Matrix.ofAffine (Matrix.ScaleUniform 2))).mulNormal n = n)
    ∧ Matrix.mulPoint ![1, 0, 0, 0]
          ((Matrix.ofAffine (Matrix.InverseScale (2 : ℚ) 3 4)).mul
            (Matrix.ofAffine (Matrix.Scale 2 3 4))) (Point.ofXYZ 4 5 6)
        = Point.ofXYZ 5 5 6
    ∧ Matrix.mulPoint ![1, 0, 0, 0]
          ((Matrix.ofAffine (Matrix.InverseScale (2 : ℚ) 3 4)).mul
            (Matrix.ofAffine (Matrix.Scale 2 3 4))) (Point.ofXYZ 4 5 6)
        ≠ Point.ofXYZ 4 5 6 := by
  have h3 : (Matrix.ofAffine (Matrix.InverseScale (2 : ℚ) 3 4)).mul
      (Matrix.ofAffine (Matrix.Scale 2 3 4)) = Matrix.new :=
    Matrix.inverseScale_mul_scale 2 3 4 (by norm_num) (by norm_num) (by norm_num)
  have h1 : (Matrix.ofAffine (Matrix.InverseScaleUniform (2 : ℚ))).mul
      (Matrix.ofAffine (Matrix.ScaleUniform 2)) = Matrix.new :=
    Matrix.inverseScaleUniform_mul_scaleUniform 2 (by norm_num)
  rw [h3, h1, Matrix.new_mulPoint_junk]
  exact ⟨Matrix.new_mulVector, Matrix.new_mulNormal, Matrix.new_mulVector,
    Matrix.new_mulNormal, rfl, point_456_ne⟩

/-- C13 (failing input). Matrix(InverseTranslate(x, y, z)) * Matrix(Translate(x, y, z)) is
the identity matrix for all x, y, z, but applied to P = Point(4, 5, 6) (w = 0) on a run in
which the storage allocated by `translation.resize(4)` holds (1, 0, 0, _), the product for
(1, 2, 3) returns Point(5, 5, 6), which is not P. -/
theorem C13_translate_roundtrip_point_fails :
    (∀ x y z : ℚ,
        (Matrix.ofAffine (Matrix.InverseTranslate x y z)).mul
          (Matrix.ofAffine (Matrix.Translate x y z)) = Matrix.new)
    ∧ (Point.ofXYZ (4 : ℚ) 5 6).w = 0
    ∧ Matrix.mulPoint ![1, 0, 0, 0]
          ((Matrix.ofAffine (Matrix.InverseTranslate (1 : ℚ) 2 3)).mul
            (Matrix.ofAffine (Matrix.Translate 1 2 3))) (Point.ofXYZ 4 5 6)
        = Point.ofXYZ 5 5 6
    ∧ Matrix.mulPoint ![1, 0, 0, 0]
          ((Matrix.ofAffine (Matrix.InverseTranslate (1 : ℚ) 2 3)).mul
            (Matrix.ofAffine (Matrix.Translate 1 2 3))) (Point.ofXYZ 4 5 6)
        ≠ Point.ofXYZ 4 5 6 := by
  rw [Matrix.inverseTranslate_mul_translate, Matrix.new_mulPoint_junk]
  exact ⟨Matrix.inverseTranslate_mul_translate, rfl, rfl, point_456_ne⟩


/-- The coefficients of the linear block of `Rotate`, row by row. -/
theorem Matrix.Rotate_linear {F : Type} [Field F] (cos sin : F → F) (r : F) (a : Vector F) :
    (Matrix.Rotate cos sin r a).linear
      = Matrix.of ![![(1 - cos r) * a.GetX * a.GetX + cos r,
                      (1 - cos r) * a.GetX * a.GetY - sin r * a.GetZ,
                      (1 - cos r) * a.GetX * a.GetZ + sin r * a.GetY],
                    ![(1 - cos r) * a.GetX * a.GetY + sin r * a.GetZ,
                      (1 - cos r) * a.GetY * a.GetY + cos r,
                      (1 - cos r) * a.GetY * a.GetZ - sin r * a.GetX],
                    ![(1 - cos r) * a.GetX * a.GetZ - sin r * a.GetY,
                      (1 - cos r) * a.GetY * a.GetZ + sin r * a.GetX,
                      (1 - cos r) * a.GetZ * a.GetZ + cos r]] := rfl

theorem Matrix.InverseRotate_eq {F : Type} [Field F] (cos sin : F → F) (r : F)
    (a : Vector F) : Matrix.InverseRotate cos sin r a = Matrix.Rotate cos sin (-r) a := rfl

theorem Matrix.Rotate_translation {F : Type} [Field F] (cos sin : F → F) (r : F)
    (a : Vector F) : (Matrix.Rotate cos sin r a).translation = 0 := rfl

/-- In exact arithmetic: with an even cosine, an odd sine, `cos r ^ 2 + sin r ^ 2 = 1` and an
axis whose x, y, z have unit length, `InverseRotate` times `Rotate` is the identity. -/
theorem Matrix.inverseRotate_mul_rotate {F : Type} [Field F] (cos sin : F → F) (r : F)
    (a : Vector F) (hc : cos (-r) = cos r) (hs : sin (-r) = -sin r)
    (hp : cos r * cos r + sin r * sin r = 1)
    (ha : a.GetX * a.GetX + a.GetY * a.GetY + a.GetZ * a.GetZ = 1) :
    (Matrix.ofAffine (Matrix.InverseRotate cos sin r a)).mul
        (Matrix.ofAffine (Matrix.Rotate cos sin r a)) = Matrix.new := by
  apply matrix_ext_blocks
  · show (Matrix.InverseRotate cos sin r a).linear * (Matrix.Rotate cos sin r a).linear = 1
    rw [Matrix.InverseRotate_eq, Matrix.Rotate_linear, Matrix.Rotate_linear, hc, hs]
    ext i j
    fin_cases i <;> fin_cases j <;>
      simp [Matrix.mul_apply, Fin.sum_univ_three]
    · linear_combination (1 - a.GetX * a.GetX) * hp
        + (sin r * sin r * 1 + (1 - cos r) * (1 - cos r) * (a.GetX * a.GetX)) * ha
    · linear_combination (0 - a.GetX * a.GetY) * hp
        + (sin r * sin r * 0 + (1 - cos r) * (1 - cos r) * (a.GetX * a.GetY)) * ha
    · linear_combination (0 - a.GetX * a.GetZ) * hp
        + (sin r * sin r * 0 + (1 - cos r) * (1 - cos r) * (a.GetX * a.GetZ)) * ha
    · linear_combination (0 - a.GetY * a.GetX) * hp
        + (sin r * sin r * 0 + (1 - cos r) * (1 - cos r) * (a.GetY * a.GetX)) * ha
    · linear_combination (1 - a.GetY * a.GetY) * hp
        + (sin r * sin r * 1 + (1 - cos r) * (1 - cos r) * (a.GetY * a.GetY)) * ha
    · linear_combination (0 - a.GetY * a.GetZ) * hp
        + (sin r * sin r * 0 + (1 - cos r) * (1 - cos r) * (a.GetY * a.GetZ)) * ha
    · linear_combination (0 - a.GetZ * a.GetX) * hp
        + (sin r * sin r * 0 + (1 - cos r) * (1 - cos r) * (a.GetZ * a.GetX)) * ha
    · linear_combination (0 - a.GetZ * a.GetY) * hp
        + (sin r * sin r * 0 + (1 - cos r) * (1 - cos r) * (a.GetZ * a.GetY)) * ha
    · linear_combination (1 - a.GetZ * a.GetZ) * hp
        + (sin r * sin r * 1 + (1 - cos r) * (1 - cos r) * (a.GetZ * a.GetZ)) * ha
  · show (Matrix.InverseRotate cos sin r a).linear.mulVec (Matrix.Rotate cos sin r a).translation
        + (Matrix.InverseRotate cos sin r a).translation = 0
    rw [Matrix.Rotate_translation, Matrix.InverseRotate_eq, Matrix.Rotate_translation]
    simp


/-- On a run in which the storage allocated by `resize(4)` holds zeros in its first three
coefficients, the rotation by `r` about `Vector(0, 0, 1)` maps `Point(x, y, z)` to
`Point(x cos r - y sin r, x sin r + y cos r, z)`. -/
theorem Matrix.rotateZ_mulPoint_of_kept {F : Type} [Field F] (cos sin : F → F) (r x y z : F)
    (fresh : Vector4f F) (hkept : topRows3 fresh = 0) :
    (Matrix.ofAffine (Matrix.Rotate cos sin r (Vector.ofXYZ 0 0 1))).mulPoint fresh
        (Point.ofXYZ x y z)
      = Point.ofXYZ (x * cos r - y * sin r) (x * sin r + y * cos r) z := by
  apply point_ext_rows
  · rw [Matrix.mulPoint_rows, hkept]
    show (Matrix.Rotate cos sin r (Vector.ofXYZ 0 0 1)).linear.mulVec ![x, y, z]
        + (0 : F) • (Matrix.Rotate cos sin r (Vector.ofXYZ 0 0 1)).translation + 0
      = ![x * cos r - y * sin r, x * sin r + y * cos r, z]
    rw [Matrix.Rotate_linear]
    funext i
    fin_cases i <;>
      simp [Matrix.mulVec, Matrix.dotProduct, Fin.sum_univ_three, Vector.ofXYZ, Vector.GetX,
        Vector.GetY, Vector.GetZ]
    ring
  · rw [Matrix.mulPoint_w]
    rfl

/-- C14 (failing input). For the angle pi and the axis Vector(0, 0, 2), which is nonzero and
not of unit length, Matrix(InverseRotate(r, a)) * Matrix(Rotate(r, a)) is not the identity
matrix: the axis is used as it is stored, without being normalized, so the bottom-right
coefficient of the linear block of Rotate(r, a) is 7 and that of the product is 49. -/
theorem C14_rotate_axis_not_normalized :
    (Matrix.Rotate Real.cos Real.sin Real.pi (Vector.ofXYZ 0 0 2)).linear 2 2 = 7
    ∧ ((Matrix.ofAffine (Matrix.InverseRotate Real.cos Real.sin Real.pi
          (Vector.ofXYZ 0 0 2))).mul
        (Matrix.ofAffine (Matrix.Rotate Real.cos Real.sin Real.pi
          (Vector.ofXYZ 0 0 2)))).matrix.linear 2 2 = 49
    ∧ (Matrix.ofAffine (Matrix.InverseRotate Real.cos Real.sin Real.pi (Vector.ofXYZ 0 0 2))).mul
        (Matrix.ofAffine (Matrix.Rotate Real.cos Real.sin Real.pi (Vector.ofXYZ 0 0 2)))
      ≠ (Matrix.new : Matrix ℝ) := by
  have h7 : (Matrix.Rotate Real.cos Real.sin Real.pi (Vector.ofXYZ 0 0 2)).linear 2 2 = 7 := by
    rw [Matrix.Rotate_linear]
    simp [Vector.ofXYZ, Vector.GetX, Vector.GetY, Vector.GetZ]
    norm_num
  have h49 : ((Matrix.ofAffine (Matrix.InverseRotate Real.cos Real.sin Real.pi
        (Vector.ofXYZ 0 0 2))).mul
      (Matrix.ofAffine (Matrix.Rotate Real.cos Real.sin Real.pi
        (Vector.ofXYZ 0 0 2)))).matrix.linear 2 2 = 49 := by
    show ((Matrix.InverseRotate Real.cos Real.sin Real.pi (Vector.ofXYZ 0 0 2)).linear
      * (Matrix.Rotate Real.cos Real.sin Real.pi (Vector.ofXYZ 0 0 2)).linear) 2 2 = 49
    rw [Matrix.InverseRotate_eq, Matrix.Rotate_linear, Matrix.Rotate_linear]
    simp [Matrix.mul_apply, Fin.sum_univ_three, Vector.ofXYZ, Vector.GetX, Vector.GetY,
      Vector.GetZ]
    norm_num
  refine ⟨h7, h49, fun h => ?_⟩
  rw [h] at h49
  simp [Matrix.new, Affine3f.Identity] at h49

/-- C15 (failing input). Matrix(Rotate(pi / 2, Vector(0, 0, 1))) applied to Point(1, 0, 0),
on a run in which the storage allocated by `translation.resize(4)` holds (1, 0, 0, _):
the result is Point(1, 1, 0), not Point(0, 1, 0). -/
theorem C15_rotate_point_fails :
    Matrix.mulPoint ![1, 0, 0, 0]
        (Matrix.ofAffine (Matrix.Rotate Real.cos Real.sin (Real.pi / 2) (Vector.ofXYZ 0 0 1)))
        (Point.ofXYZ 1 0 0) = Point.ofXYZ 1 1 0
    ∧ Matrix.mulPoint ![1, 0, 0, 0]
        (Matrix.ofAffine (Matrix.Rotate Real.cos Real.sin (Real.pi / 2) (Vector.ofXYZ 0 0 1)))
        (Point.ofXYZ 1 0 0) ≠ Point.ofXYZ 0 1 0 := by
  have hev : Matrix.mulPoint ![1, 0, 0, 0]
      (Matrix.ofAffine (Matrix.Rotate Real.cos Real.sin (Real.pi / 2) (Vector.ofXYZ 0 0 1)))
      (Point.ofXYZ 1 0 0) = Point.ofXYZ 1 1 0 := by
    apply point_ext_rows
    · rw [Matrix.mulPoint_rows]
      show (Matrix.Rotate Real.cos Real.sin (Real.pi / 2) (Vector.ofXYZ 0 0 1)).linear.mulVec
            ![1, 0, 0]
          + (0 : ℝ) • (Matrix.Rotate Real.cos Real.sin (Real.pi / 2)
              (Vector.ofXYZ 0 0 1)).translation + ![1, 0, 0]
        = ![1, 1, 0]
      rw [Matrix.Rotate_linear]
      funext i
      fin_cases i <;>
        simp [Matrix.mulVec, Matrix.dotProduct, Fin.sum_univ_three, Vector.ofXYZ, Vector.GetX,
          Vector.GetY, Vector.GetZ]
    · rw [Matrix.mulPoint_w]
      rfl
  refine ⟨hev, ?_⟩
  rw [hev]
  intro h
  have h0 := congrFun (congrArg Point.coordinates h) 0
  simp [Point.ofXYZ] at h0

/-- The cross product written with the three-float constructor. -/
theorem Vector.cross_eq {F : Type} [Field F] (past : F) (a b : Vector F) :
    Vector.cross past a b
      = Vector.ofXYZ (a.GetY * b.GetZ - a.GetZ * b.GetY) (a.GetZ * b.GetX - a.GetX * b.GetZ)
          (a.GetX * b.GetY - a.GetY * b.GetX) := by
  ext i
  fin_cases i <;>
    simp [Vector.cross, Vector.ofArray, Vector.ofXYZ, cross3, topRows3, update_last,
      Vector.GetX, Vector.GetY, Vector.GetZ]

/-- C19. For all Vectors a and b, whatever their stored w (and whatever float lies past
the temporary three-float array), a ^ b is the Vector
(ay*bz - az*by, az*bx - ax*bz, ax*by - ay*bx) with w = 0; in particular
Vector(1, 0, 0) ^ Vector(0, 1, 0) == Vector(0, 0, 1). -/
theorem C19_cross_product {F : Type} [Field F] (past : F) (a b : Vector F) :
    Vector.cross past a b
        = Vector.ofXYZ (a.GetY * b.GetZ - a.GetZ * b.GetY)
            (a.GetZ * b.GetX - a.GetX * b.GetZ) (a.GetX * b.GetY - a.GetY * b.GetX)
    ∧ (Vector.cross past a b).w = 0
    ∧ Vector.cross past (Vector.ofXYZ 1 0 0) (Vector.ofXYZ 0 1 0) = Vector.ofXYZ 0 0 1 := by
  refine ⟨Vector.cross_eq past a b, ?_, ?_⟩
  · rw [Vector.cross_eq]
    rfl
  · rw [Vector.cross_eq]
    simp [Vector.ofXYZ, Vector.GetX, Vector.GetY, Vector.GetZ]

/-- C21. The dot product is symmetric: for all Vectors v1, v2, v1 * v2 == v2 * v1, and for
every Vector v and Normal n, v * n == n * v. -/
theorem C21_dot_symmetric {F : Type} [Field F] (v1 v2 v : Vector F) (n : Normal F) :
    v1.dotVector v2 = v2.dotVector v1 ∧ v.dotNormal n = n.dotVector v := by
  constructor
  · show dot v1.coordinates v2.coordinates = dot v2.coordinates v1.coordinates
    unfold dot
    ring
  · show dot v.coordinates n.coordinates = dot n.coordinates v.coordinates
    unfold dot
    ring

/-- C23. For every scalar s and every Vector v, Point p and Normal n, s * v == v * s,
s * p == p * s and s * n == n * s, each being the componentwise product of s with the four
coordinates. -/
theorem C23_scalar_mul_commutes {F : Type} [Field F] (s : F) (v : Vector F) (p : Point F)
    (n : Normal F) :
    (Vector.scalarMul s v = v.mulScalar s
        ∧ ∀ i : Fin 4, (Vector.scalarMul s v).GetContents i = s * v.GetContents i)
    ∧ (Point.scalarMul s p = p.mulScalar s
        ∧ ∀ i : Fin 4, (Point.scalarMul s p).GetContents i = s * p.GetContents i)
    ∧ (Normal.scalarMul s n = n.mulScalar s
        ∧ ∀ i : Fin 4, (Normal.scalarMul s n).GetContents i = s * n.GetContents i) := by
  refine ⟨⟨?_, fun i => rfl⟩, ⟨?_, fun i => rfl⟩, ⟨?_, fun i => rfl⟩⟩
  · ext i
    show s * v.coordinates i = v.coordinates i * s
    ring
  · ext i
    show s * p.coordinates i = p.coordinates i * s
    ring
  · ext i
    show s * n.coordinates i = n.coordinates i * s
    ring

/-- C25. For every Vector v and Normal n, v + n and n + v are Vectors with the same
coordinates, the componentwise sums of the four coordinates of v and n; the conversion of
the intermediate Normal to the returned Vector changes no coordinate. -/
theorem C25_vector_normal_sum {F : Type} [Field F] (v : Vector F) (n : Normal F) :
    v.addNormal n = n.addVector v
    ∧ (∀ i : Fin 4, (v.addNormal n).GetContents i = v.GetContents i + n.GetContents i)
    ∧ (∀ i : Fin 4, (n.addVector v).GetContents i = v.GetContents i + n.GetContents i)
    ∧ Vector.ofNormal (Normal.ofContents (n.coordinates + v.GetContents))
        = Vector.ofContents (n.coordinates + v.GetContents) := by
  refine ⟨?_, fun i => rfl, fun i => ?_, rfl⟩
  · ext i
    show v.coordinates i + n.coordinates i = n.coordinates i + v.coordinates i
    ring
  · show n.coordinates i + v.coordinates i = v.coordinates i + n.coordinates i
    ring

/-- C29. For every Matrix M with linear block L and translation t and every Normal n, M * n
is the Normal whose x, y, z are the transpose of L applied to n's x, y, z and whose w is
n's w; a Matrix with the same linear block and any other translation gives the same
Normal. -/
theorem C29_mulNormal_transpose_rule {F : Type} [Field F] (L : Matrix3f F)
    (t t' : Vector3f F) (n : Normal F) :
    topRows3 ((Matrix.ofAffine ⟨L, t⟩).mulNormal n).GetContents
        = L.transpose.mulVec (topRows3 n.GetContents)
      ∧ ((Matrix.ofAffine ⟨L, t⟩).mulNormal n).w = n.w
      ∧ (Matrix.ofAffine ⟨L, t⟩).mulNormal n = (Matrix.ofAffine ⟨L, t'⟩).mulNormal n :=
  ⟨Matrix.mulNormal_rows _ n, Matrix.mulNormal_w _ n, rfl⟩


/-- A 4-tuple of nonzero norm is normalized by dividing each coefficient by the norm. -/
theorem normalize_of_ne {F : Type} [Field F] [DecidableEq F] (sqrt : F → F) (a : Vector4f F)
    (h : norm sqrt a ≠ 0) : normalize sqrt a = some (fun i => a i / norm sqrt a) :=
  if_neg h

/-- A 4-tuple of zero norm has no normalized value. -/
theorem normalize_of_eq {F : Type} [Field F] [DecidableEq F] (sqrt : F → F) (a : Vector4f F)
    (h : norm sqrt a = 0) : normalize sqrt a = none :=
  if_pos h

/-- The magnitude of (3, 0, 4, 0) is 5. -/
theorem magnitude_304 : Real.sqrt (squaredNorm ![(3 : ℝ), 0, 4, 0]) = 5 := by
  have h : squaredNorm ![(3 : ℝ), 0, 4, 0] = 5 * 5 := by
    simp [squaredNorm, dot]
    norm_num
  rw [h, Real.sqrt_mul_self (by norm_num)]


/-- C24. For all Matrix objects A and B (references a and b into the store), after A *= B
the matrix held by A is the matrix returned by (old A) * B, B is unchanged when it is
another object than A, the returned reference is A itself, and no other object changes. -/
theorem C24_mulAssign_refines_mul {F : Type} [Field F] (store : Nat → Matrix F)
    (a b : Nat) :
    (Matrix.mulAssign store a b).1 a = (store a).mul (store b)
    ∧ (b ≠ a → (Matrix.mulAssign store a b).1 b = store b)
    ∧ (Matrix.mulAssign store a b).2 = a
    ∧ ∀ c : Nat, c ≠ a → (Matrix.mulAssign store a b).1 c = store c := by
  refine ⟨?_, fun h => ?_, rfl, fun c h => ?_⟩
  · simp [Matrix.mulAssign, Matrix.mul]
  · simp [Matrix.mulAssign, Function.update_noteq h]
  · simp [Matrix.mulAssign, Function.update_noteq h]

/-- C24 (witness). The statement at a store holding Matrix(Translate(1, 2, 3)) at reference 0
and Matrix(Scale(2, 2, 2)) elsewhere, for A at 0 and B at 1. -/
theorem C24_mulAssign_refines_mul_witness :
    (1 : Nat) ≠ 0
    ∧ (Matrix.mulAssign
          (fun i => if i = 0 then Matrix.ofAffine (Matrix.Translate (1 : ℚ) 2 3)
            else Matrix.ofAffine (Matrix.Scale 2 2 2)) 0 1).1 1
        = Matrix.ofAffine (Matrix.Scale 2 2 2) :=
  ⟨by decide,
    (C24_mulAssign_refines_mul
      (fun i => if i = 0 then Matrix.ofAffine (Matrix.Translate (1 : ℚ) 2 3)
        else Matrix.ofAffine (Matrix.Scale 2 2 2)) 0 1).2.1 (by decide)⟩

/-- The fourth coefficient of the resized translation is 0, whatever the storage holds. -/
theorem Matrix.resizedTranslation_last {F : Type} [Field F] (fresh : Vector4f F)
    (m : Matrix F) : Matrix.resizedTranslation fresh m 3 = 0 := by
  simp [Matrix.resizedTranslation]

/-- The Point operator adds the resized translation to the affine product. -/
theorem Matrix.mulPoint_eq_resized {F : Type} [Field F] (fresh : Vector4f F) (m : Matrix F)
    (p : Point F) :
    m.mulPoint fresh p
      = Point.ofContents (m.matrix.mulVec4 p.GetContents + Matrix.resizedTranslation fresh m) :=
  rfl

/-- C26 (failing input). For the translation (1, 2, 3) of Matrix(Translate(1, 2, 3)), on a run
in which the storage allocated by `translation.resize(4)` holds (0, 0, 0, 7): after the
resize and the assignment of 0 to the fourth coefficient the vector is (0, 0, 0, 0); its
fourth coefficient is 0, but its first three coefficients are not the translation. -/
theorem C26_resize_loses_translation :
    (Matrix.ofAffine (Matrix.Translate (1 : ℚ) 2 3)).matrix.translation = ![1, 2, 3]
    ∧ Matrix.resizedTranslation ![0, 0, 0, 7] (Matrix.ofAffine (Matrix.Translate (1 : ℚ) 2 3))
        = ![0, 0, 0, 0]
    ∧ topRows3 (Matrix.resizedTranslation ![0, 0, 0, 7]
          (Matrix.ofAffine (Matrix.Translate (1 : ℚ) 2 3)))
        ≠ (Matrix.ofAffine (Matrix.Translate (1 : ℚ) 2 3)).matrix.translation
    ∧ Matrix.resizedTranslation ![0, 0, 0, 7]
        (Matrix.ofAffine (Matrix.Translate (1 : ℚ) 2 3)) 3 = 0 := by
  have hev : Matrix.resizedTranslation ![0, 0, 0, 7]
      (Matrix.ofAffine (Matrix.Translate (1 : ℚ) 2 3)) = ![0, 0, 0, 0] := by
    simp [Matrix.resizedTranslation, resize4, update_last]
  refine ⟨rfl, hev, ?_, Matrix.resizedTranslation_last _ _⟩
  rw [hev]
  intro h
  have h0 := congrFun h 0
  simp [topRows3, Matrix.ofAffine, Matrix.Translate, Affine3f.ofTranslation] at h0

/-- C28 (failing input). M = Matrix(Translate(1, 2, 3)) applied to the Point built by the
raw 4-tuple constructor from (0, 0, 0, 1), on a run in which the storage allocated by
`translation.resize(4)` holds zeros: the result is (1, 2, 3, 1), so its x, y, z are not
L applied to p plus (1 + w) times t, which would be (2, 4, 6). -/
theorem C28_mulPoint_raw_w_fails :
    Matrix.mulPoint ![0, 0, 0, 0] (Matrix.ofAffine (Matrix.Translate (1 : ℚ) 2 3))
        (Point.ofContents ![0, 0, 0, 1]) = Point.ofContents ![1, 2, 3, 1]
    ∧ topRows3 (Matrix.mulPoint ![0, 0, 0, 0] (Matrix.ofAffine (Matrix.Translate (1 : ℚ) 2 3))
        (Point.ofContents ![0, 0, 0, 1])).GetContents
      ≠ (Matrix.ofAffine (Matrix.Translate (1 : ℚ) 2 3)).matrix.linear.mulVec
            (topRows3 (Point.ofContents ![(0 : ℚ), 0, 0, 1]).GetContents)
          + (1 + (Point.ofContents ![(0 : ℚ), 0, 0, 1]).w)
            • (Matrix.ofAffine (Matrix.Translate (1 : ℚ) 2 3)).matrix.translation := by
  have hev : Matrix.mulPoint ![0, 0, 0, 0] (Matrix.ofAffine (Matrix.Translate (1 : ℚ) 2 3))
      (Point.ofContents ![0, 0, 0, 1]) = Point.ofContents ![1, 2, 3, 1] := by
    ext i
    fin_cases i <;>
      simp [Matrix.mulPoint, Matrix.ofAffine, Matrix.Translate, Point.ofContents,
        Point.GetContents, resize4, Affine3f.ofTranslation, mulVec4_apply, update_last]
  refine ⟨hev, ?_⟩
  rw [hev]
  intro h
  have h0 := congrFun h 0
  simp [Matrix.ofAffine, Matrix.Translate, Point.ofContents, Point.GetContents, Point.w,
    Affine3f.ofTranslation, topRows3] at h0


/-- C27 (counterexample). The default Vector has w = 0 and magnitude 0, and Normalize leaves
it without numeric coordinates (the division by the zero magnitude), so there is no
resulting Vector with w = 0. -/
theorem C27_counterexample :
    (Vector.new : Vector ℝ).w = 0
    ∧ (Vector.new : Vector ℝ).Normalize Real.sqrt = none
    ∧ ¬ ∃ v' : Vector ℝ, (Vector.new : Vector ℝ).Normalize Real.sqrt = some v' ∧ v'.w = 0 := by
  have hn : (Vector.new : Vector ℝ).Normalize Real.sqrt = none := by
    have h0 : norm Real.sqrt (Vector.new : Vector ℝ).coordinates = 0 := by
      simp [Eigen.norm, squaredNorm, dot, Vector.new]
    show (normalize Real.sqrt (Vector.new : Vector ℝ).coordinates).map Vector.mk = none
    rw [normalize_of_eq Real.sqrt _ h0]
    rfl
  refine ⟨rfl, hn, ?_⟩
  rintro ⟨v', h, -⟩
  rw [hn] at h
  exact Option.noConfusion h

/-- C27 (amended). If all Vector, Point and Normal operands have w = 0, then the result of
+, -, unary -, scalar * on either side, scalar / by a nonzero scalar, ^, Matrix * Point
(whatever the resized storage holds), Matrix * Vector and Matrix * Normal has w = 0, and
Normalize of a Vector or Normal whose magnitude is not 0 leaves w = 0. -/
theorem C27_w_zero_closed {F : Type} [Field F] [DecidableEq F] (sqrt : F → F)
    (u v : Vector F) (p q : Point F) (m n : Normal F) (M : Matrix F) (fresh : Vector4f F)
    (s past : F) (hu : u.w = 0) (hv : v.w = 0) (hp : p.w = 0) (hq : q.w = 0)
    (hm : m.w = 0) (hn : n.w = 0) :
    ((u.add v).w = 0 ∧ (u.sub v).w = 0 ∧ u.neg.w = 0 ∧ (u.mulScalar s).w = 0
        ∧ (Vector.scalarMul s u).w = 0 ∧ (s ≠ 0 → (u.divScalar s).w = 0)
        ∧ (Vector.cross past u v).w = 0 ∧ (u.addNormal n).w = 0)
    ∧ ((p.addVector v).w = 0 ∧ (p.subVector v).w = 0 ∧ (p.sub q).w = 0
        ∧ (p.mulScalar s).w = 0 ∧ (Point.scalarMul s p).w = 0)
    ∧ (n.neg.w = 0 ∧ (m.add n).w = 0 ∧ (n.mulScalar s).w = 0
        ∧ (Normal.scalarMul s n).w = 0 ∧ (n.addVector v).w = 0)
    ∧ ((M.mulPoint fresh p).w = 0 ∧ (M.mulVector v).w = 0 ∧ (M.mulNormal n).w = 0)
    ∧ (u.GetMagnitude sqrt ≠ 0 → ∃ u' : Vector F, u.Normalize sqrt = some u' ∧ u'.w = 0)
    ∧ (n.GetMagnitude sqrt ≠ 0 → ∃ n' : Normal F, n.Normalize sqrt = some n' ∧ n'.w = 0) := by
  have hu' : u.coordinates 3 = 0 := hu
  have hv' : v.coordinates 3 = 0 := hv
  have hp' : p.coordinates 3 = 0 := hp
  have hq' : q.coordinates 3 = 0 := hq
  have hm' : m.coordinates 3 = 0 := hm
  have hn' : n.coordinates 3 = 0 := hn
  refine ⟨⟨?_, ?_, ?_, ?_, ?_, fun _ => ?_, ?_, ?_⟩, ⟨?_, ?_, ?_, ?_, ?_⟩,
    ⟨?_, ?_, ?_, ?_, ?_⟩, ⟨?_, ?_, ?_⟩, fun h => ?_, fun h => ?_⟩
  · show u.coordinates 3 + v.coordinates 3 = 0
    rw [hu', hv', add_zero]
  · show u.coordinates 3 - v.coordinates 3 = 0
    rw [hu', hv', sub_zero]
  · show -u.coordinates 3 = 0
    rw [hu', neg_zero]
  · show u.coordinates 3 * s = 0
    rw [hu', zero_mul]
  · show s * u.coordinates 3 = 0
    rw [hu', mul_zero]
  · show u.coordinates 3 / s = 0
    rw [hu', zero_div]
  · rw [Vector.cross_eq]
    rfl
  · show u.coordinates 3 + n.coordinates 3 = 0
    rw [hu', hn', add_zero]
  · show p.coordinates 3 + v.coordinates 3 = 0
    rw [hp', hv', add_zero]
  · show p.coordinates 3 - v.coordinates 3 = 0
    rw [hp', hv', sub_zero]
  · show p.coordinates 3 - q.coordinates 3 = 0
    rw [hp', hq', sub_zero]
  · show p.coordinates 3 * s = 0
    rw [hp', zero_mul]
  · show s * p.coordinates 3 = 0
    rw [hp', mul_zero]
  · show -n.coordinates 3 = 0
    rw [hn', neg_zero]
  · show m.coordinates 3 + n.coordinates 3 = 0
    rw [hm', hn', add_zero]
  · show n.coordinates 3 * s = 0
    rw [hn', zero_mul]
  · show s * n.coordinates 3 = 0
    rw [hn', mul_zero]
  · show n.coordinates 3 + v.coordinates 3 = 0
    rw [hn', hv', add_zero]
  · rw [Matrix.mulPoint_w, hp]
  · rw [Matrix.mulVector_w, hv]
  · rw [Matrix.mulNormal_w, hn]
  · refine ⟨⟨fun i => u.coordinates i / norm sqrt u.coordinates⟩, ?_, ?_⟩
    · show (normalize sqrt u.coordinates).map Vector.mk = _
      rw [normalize_of_ne sqrt u.coordinates h]
      rfl
    · show u.coordinates 3 / norm sqrt u.coordinates = 0
      rw [hu', zero_div]
  · refine ⟨⟨fun i => n.coordinates i / norm sqrt n.coordinates⟩, ?_, ?_⟩
    · show (normalize sqrt n.coordinates).map Normal.mk = _
      rw [normalize_of_ne sqrt n.coordinates h]
      rfl
    · show n.coordinates 3 / norm sqrt n.coordinates = 0
      rw [hn', zero_div]

/-- C27 (witness). The amended statement at Vector(3, 0, 4), Vector(1, 2, 3), Point(4, 5, 6),
Point(1, 1, 1), Normal(0, 0, 1), Normal(3, 0, 4) and Matrix(Translate(1, 2, 3)). -/
theorem C27_w_zero_closed_witness :
    ((Vector.ofXYZ (3 : ℝ) 0 4).w = 0 ∧ (Vector.ofXYZ (1 : ℝ) 2 3).w = 0
      ∧ (Point.ofXYZ (4 : ℝ) 5 6).w = 0 ∧ (Point.ofXYZ (1 : ℝ) 1 1).w = 0
      ∧ (Normal.ofXYZ (0 : ℝ) 0 1).w = 0 ∧ (Normal.ofXYZ (3 : ℝ) 0 4).w = 0)
    ∧ (Vector.ofXYZ (3 : ℝ) 0 4).GetMagnitude Real.sqrt ≠ 0
    ∧ ((Vector.ofXYZ (3 : ℝ) 0 4).add (Vector.ofXYZ 1 2 3)).w = 0
    ∧ (Matrix.mulPoint ![1, 0, 0, 0] (Matrix.ofAffine (Matrix.Translate (1 : ℝ) 2 3))
        (Point.ofXYZ 4 5 6)).w = 0
    ∧ ∃ u' : Vector ℝ, (Vector.ofXYZ (3 : ℝ) 0 4).Normalize Real.sqrt = some u' ∧ u'.w = 0 :=
  have hmag : (Vector.ofXYZ (3 : ℝ) 0 4).GetMagnitude Real.sqrt ≠ 0 := by
    show Real.sqrt (squaredNorm ![(3 : ℝ), 0, 4, 0]) ≠ 0
    rw [magnitude_304]
    norm_num
  have h := C27_w_zero_closed Real.sqrt (Vector.ofXYZ (3 : ℝ) 0 4) (Vector.ofXYZ 1 2 3)
    (Point.ofXYZ 4 5 6) (Point.ofXYZ 1 1 1) (Normal.ofXYZ 0 0 1) (Normal.ofXYZ 3 0 4)
    (Matrix.ofAffine (Matrix.Translate 1 2 3)) ![1, 0, 0, 0] 2 0 rfl rfl rfl rfl rfl rfl
  ⟨⟨rfl, rfl, rfl, rfl, rfl, rfl⟩, hmag, h.1.1, h.2.2.2.1.1, h.2.2.2.2.1 hmag⟩

/-- C8 (amended). For all Matrices A and B with linear blocks L_A and L_B and every Normal n,
(A * B) * n is the Normal whose x, y, z are the matrix product
transpose(L_B) * transpose(L_A) applied to n's x, y, z and whose w is n's w, while
A * (B * n) applies transpose(L_A) to the result of applying transpose(L_B): the composed
transform reaches a Normal through the transposes in the reverse order. -/
theorem C8_composition_on_normal_transposes {F : Type} [Field F] (A B : Matrix F)
    (n : Normal F) :
    topRows3 ((A.mul B).mulNormal n).GetContents
        = (B.matrix.linear.transpose * A.matrix.linear.transpose).mulVec
            (topRows3 n.GetContents)
    ∧ ((A.mul B).mulNormal n).w = n.w
    ∧ topRows3 (A.mulNormal (B.mulNormal n)).GetContents
        = A.matrix.linear.transpose.mulVec
            (B.matrix.linear.transpose.mulVec (topRows3 n.GetContents))
    ∧ (A.mulNormal (B.mulNormal n)).w = n.w := by
  refine ⟨?_, Matrix.mulNormal_w _ n, ?_, ?_⟩
  · rw [Matrix.mulNormal_rows, ← Matrix.transpose_mul]
    rfl
  · rw [Matrix.mulNormal_rows, Matrix.mulNormal_rows]
  · rw [Matrix.mulNormal_w, Matrix.mulNormal_w]

/-- C16 (failing input). For A, B, C the default (identity) Matrix and p the default Point:
(A * B) * C and A * (B * C) are the same Matrix, but each application to p reads its own
storage allocated by `translation.resize(4)`; on a run in which the first holds
(1, 0, 0, _) and the second zeros, the left side gives Point(1, 0, 0) and the right side
Point(0, 0, 0). -/
theorem C16_associativity_on_point_fails :
    ((Matrix.new : Matrix ℚ).mul Matrix.new).mul Matrix.new
        = (Matrix.new : Matrix ℚ).mul (Matrix.new.mul Matrix.new)
    ∧ Matrix.mulPoint ![1, 0, 0, 0] (((Matrix.new : Matrix ℚ).mul Matrix.new).mul Matrix.new)
        Point.new = Point.ofXYZ 1 0 0
    ∧ Matrix.mulPoint ![0, 0, 0, 0] ((Matrix.new : Matrix ℚ).mul (Matrix.new.mul Matrix.new))
        Point.new = Point.ofXYZ 0 0 0
    ∧ Matrix.mulPoint ![1, 0, 0, 0] (((Matrix.new : Matrix ℚ).mul Matrix.new).mul Matrix.new)
        Point.new
      ≠ Matrix.mulPoint ![0, 0, 0, 0] ((Matrix.new : Matrix ℚ).mul (Matrix.new.mul Matrix.new))
        Point.new := by
  have hI : (Matrix.new : Matrix ℚ).mul Matrix.new = Matrix.new := by
    apply matrix_ext_blocks
    · simp [Matrix.mul, Matrix.new, Matrix.GetContents, Affine3f.mul, Affine3f.Identity]
    · simp [Matrix.mul, Matrix.new, Matrix.GetContents, Affine3f.mul, Affine3f.Identity]
  have hl : Matrix.mulPoint ![1, 0, 0, 0] (Matrix.new : Matrix ℚ) Point.new
      = Point.ofXYZ 1 0 0 := by
    ext i
    fin_cases i <;>
      simp [Matrix.mulPoint, Matrix.new, Affine3f.Identity, Point.new, Point.ofXYZ,
        Point.ofContents, Point.GetContents, resize4, mulVec4_apply, update_last]
  have hr : Matrix.mulPoint ![0, 0, 0, 0] (Matrix.new : Matrix ℚ) Point.new
      = Point.ofXYZ 0 0 0 := by
    ext i
    fin_cases i <;>
      simp [Matrix.mulPoint, Matrix.new, Affine3f.Identity, Point.new, Point.ofXYZ,
        Point.ofContents, Point.GetContents, resize4, mulVec4_apply, update_last]
  rw [hI, hI, hl, hr]
  refine ⟨rfl, rfl, rfl, fun h => ?_⟩
  have h0 := congrFun (congrArg Point.coordinates h) 0
  simp [Point.ofXYZ] at h0

/-- C30 (failing input). For M the default (identity) Matrix, P = Point(4, 5, 6),
Q = Point(1, 1, 1) and v = Vector(1, 0, 0), all with w = 0: each application of M to a
Point reads its own storage allocated by `translation.resize(4)`; on a run in which one
application finds (1, 0, 0, _) and the other zeros, M * (P + v) is Point(6, 5, 6) while
(M * P) + (M * v) is Point(5, 5, 6), and (M * P) - (M * Q) is Vector(4, 4, 5) while
M * (P - Q) is Vector(3, 4, 5). -/
theorem C30_affine_action_fails :
    ((Point.ofXYZ (4 : ℚ) 5 6).w = 0 ∧ (Point.ofXYZ (1 : ℚ) 1 1).w = 0
      ∧ (Vector.ofXYZ (1 : ℚ) 0 0).w = 0)
    ∧ (Matrix.mulPoint ![1, 0, 0, 0] (Matrix.new : Matrix ℚ)
          ((Point.ofXYZ 4 5 6).addVector (Vector.ofXYZ 1 0 0)) = Point.ofXYZ 6 5 6
      ∧ (Matrix.mulPoint ![0, 0, 0, 0] (Matrix.new : Matrix ℚ) (Point.ofXYZ 4 5 6)).addVector
          ((Matrix.new : Matrix ℚ).mulVector (Vector.ofXYZ 1 0 0)) = Point.ofXYZ 5 5 6
      ∧ Point.ofXYZ (6 : ℚ) 5 6 ≠ Point.ofXYZ 5 5 6)
    ∧ ((Matrix.mulPoint ![1, 0, 0, 0] (Matrix.new : Matrix ℚ) (Point.ofXYZ 4 5 6)).sub
          (Matrix.mulPoint ![0, 0, 0, 0] (Matrix.new : Matrix ℚ) (Point.ofXYZ 1 1 1))
        = Vector.ofXYZ 4 4 5
      ∧ (Matrix.new : Matrix ℚ).mulVector ((Point.ofXYZ 4 5 6).sub (Point.ofXYZ 1 1 1))
        = Vector.ofXYZ 3 4 5
      ∧ Vector.ofXYZ (4 : ℚ) 4 5 ≠ Vector.ofXYZ 3 4 5) := by
  refine ⟨⟨rfl, rfl, rfl⟩, ⟨?_, ?_, ?_⟩, ⟨?_, ?_, ?_⟩⟩
  · ext i
    fin_cases i <;>
      simp [Matrix.mulPoint, Matrix.new, Affine3f.Identity, Point.addVector, Point.ofXYZ,
        Point.ofContents, Point.GetContents, Vector.ofXYZ, Vector.GetContents, resize4,
        mulVec4_apply, update_last]
    norm_num
  · rw [Matrix.new_mulVector]
    ext i
    fin_cases i <;>
      simp [Matrix.mulPoint, Matrix.new, Affine3f.Identity, Point.addVector, Point.ofXYZ,
        Point.ofContents, Point.GetContents, Vector.ofXYZ, Vector.GetContents, resize4,
        mulVec4_apply, update_last]
    norm_num
  · intro h
    have h0 := congrFun (congrArg Point.coordinates h) 0
    simp [Point.ofXYZ] at h0
  · ext i
    fin_cases i <;>
      simp [Matrix.mulPoint, Matrix.new, Affine3f.Identity, Point.sub, Point.ofXYZ,
        Point.ofContents, Point.GetContents, Vector.ofXYZ, Vector.ofContents, resize4,
        mulVec4_apply, update_last]
    all_goals norm_num
  · rw [Matrix.new_mulVector]
    ext i
    fin_cases i <;>
      simp [Point.sub, Point.ofXYZ, Vector.ofXYZ, Vector.ofContents]
    all_goals norm_num
  · intro h
    have h0 := congrFun (congrArg Vector.coordinates h) 0
    simp [Vector.ofXYZ] at h0

end SCPPR
